import Mathlib

/-!
Verification of the RoadSim Traffic Builder core (grid, path cache, pathfinding,
vehicles) against its natural-language specification.  The definitions below are a
shallow embedding of `src/main.ts` (the `PathCache` class and the `GameScene`
methods), with Phaser rendering, camera and input handling out of scope.  Machine
numbers are modelled as `Int`/`Nat`/`ℚ`, JS `Map`s as insertion-ordered
association lists, and the mutable scene as an explicit state record.
-/

namespace RoadSim

/-- A grid cell, the `GridPoint` type of the source: integer coordinates. -/
abbrev Cell := Int × Int

/-- Grid width, the `gridWidth` field (48). -/
def gridWidth : Nat := 48

/-- Grid height, the `gridHeight` field (32). -/
def gridHeight : Nat := 32

/-- Tile size in world units, the `tileSize` field (32). -/
def tileSize : ℚ := 32

/-- The four 4-directional neighbours of a cell (no diagonal movement,
matching `new PF.AStarFinder({ allowDiagonal: false })`). -/
def neighborsOf (c : Cell) : List Cell :=
  [(c.1 - 1, c.2), (c.1 + 1, c.2), (c.1, c.2 - 1), (c.1, c.2 + 1)]

/-- 4-adjacency as a Bool test. -/
def adjacent (p c : Cell) : Bool :=
  decide (c ∈ neighborsOf p)

/-- Bounds test, `GameScene.isInside`: `x >= 0 && y >= 0 && x < W && y < H`. -/
def insideB (W H : Nat) (c : Cell) : Bool :=
  decide (0 ≤ c.1 ∧ 0 ≤ c.2 ∧ c.1 < (W : Int) ∧ c.2 < (H : Int))

/-- Pointwise update of a function-represented matrix (`this.grid[y][x] = v`). -/
def updateFn (f : Cell → Nat) (c : Cell) (v : Nat) : Cell → Nat :=
  fun d => if d = c then v else f d

/-- The bounded insertion-ordered cache of the `PathCache` class.  The JS `Map`
is modelled as an association list in insertion order; `limit` is the capacity. -/
structure PathCache (K : Type) where
  entries : List (K × List Cell)
  limit : Nat

/-- `PathCache.get`: looks the key up and returns a defensive copy of the stored
path (`cached.map(cell => ({...cell}))`; the per-cell copy is the identity on
immutable values, the aliasing content is modelled separately on a heap). -/
def PathCache.get {K : Type} [DecidableEq K] (cache : PathCache K) (key : K) :
    Option (List Cell) :=
  match cache.entries.find? (fun e => decide (e.1 = key)) with
  | some e => some (e.2.map (fun cell => cell))
  | none => none

/-- `PathCache.set`: stores a snapshot copy, first deleting the key if present
(so a re-inserted key moves to the newest position), then dropping the single
oldest entry when the size exceeds the limit. -/
def PathCache.set {K : Type} [DecidableEq K] (cache : PathCache K) (key : K)
    (path : List Cell) : PathCache K :=
  let snapshot := path.map (fun cell => cell)
  let afterDelete := cache.entries.eraseP (fun e => decide (e.1 = key))
  let inserted := afterDelete ++ [(key, snapshot)]
  { entries := if cache.limit < inserted.length then inserted.tail else inserted,
    limit := cache.limit }

/-- `PathCache.clear`: drops all entries. -/
def PathCache.clear {K : Type} (cache : PathCache K) : PathCache K :=
  { entries := [], limit := cache.limit }

/-- Normalisation of the axis-aligned heading vectors that arise between grid
cell centers (`initialHeading.normalize()`); the zero vector is replaced by
`(1, 0)` as in `createCar`.  Non-axis-aligned vectors do not arise on grid
paths, where consecutive centers differ along exactly one axis. -/
def normalizeGrid (v : ℚ × ℚ) : ℚ × ℚ :=
  if v = (0, 0) then (1, 0)
  else if v.1 = 0 then (0, if 0 < v.2 then 1 else -1)
  else if v.2 = 0 then ((if 0 < v.1 then 1 else -1), 0)
  else v

/-- World position of a cell center, `cellToWorldVector`:
`(x * tileSize + tileSize/2, y * tileSize + tileSize/2)`. -/
def cellToWorld (c : Cell) : ℚ × ℚ :=
  ((c.1 : ℚ) * tileSize + tileSize / 2, (c.2 : ℚ) * tileSize + tileSize / 2)

/-- A vehicle, the `Car` record of the source (the Phaser sprite container is
out of scope; a per-scene counter of created rendering handles stands in for
it). -/
structure Car where
  id : Nat
  path : List (ℚ × ℚ)
  gridPath : List Cell
  destination : Cell
  targetIndex : Nat
  position : ℚ × ℚ
  heading : ℚ × ℚ
  currentSpeed : ℚ
  targetSpeed : ℚ
  maxSpeed : ℚ
  width : ℚ
  length : ℚ

/-- The mutable state of `GameScene` restricted to the simulation core: road
grid and its inverted walkability mirror, road counter, path cache, spawn and
destination point sets (JS `Map`s in insertion order, keyed by the injective
`cellKey` string), spawn rotation, vehicles, id counter, a counter of rendering
handles issued to the excluded rendering collaborator, path-refresh flags and
the HUD flash message. -/
structure Scene where
  grid : Cell → Nat
  walkMatrix : Cell → Nat
  roadCount : Nat
  pathCache : PathCache (Cell × Cell)
  spawnPoints : List Cell
  destinationPoints : List Cell
  spawnOrder : List Cell
  spawnCursor : Nat
  cars : List Car
  carId : Nat
  spritesCreated : Nat
  carPathsDirty : Bool
  carPathRefreshDelay : ℚ
  needsRedraw : Bool
  flashMessage : String
  flashTimer : ℚ
  statusTimer : ℚ

/-- `GameScene.isRoad`: bounds-checked road membership, `isInside && grid = 1`. -/
def isRoadS (s : Scene) (c : Cell) : Bool :=
  insideB gridWidth gridHeight c && decide (s.grid c = 1)

/-- `GameScene.showFlash`: records the transient HUD message (the nested
`refreshHud(true)` resets the status timer). -/
def showFlash (s : Scene) (message : String) (duration : ℚ) : Scene :=
  { s with flashMessage := message, flashTimer := duration, statusTimer := 0 }

/-- `GameScene.scheduleCarPathRefresh`: marks car paths dirty with a delay. -/
def scheduleCarPathRefresh (s : Scene) (delay : ℚ) : Scene :=
  { s with carPathsDirty := true, carPathRefreshDelay := delay }

/-- `GameScene.invalidatePaths`: clears the path cache, schedules a car path
refresh and requests a redraw. -/
def invalidatePaths (s : Scene) (delay : ℚ) : Scene :=
  let s1 := { s with pathCache := s.pathCache.clear }
  let s2 := scheduleCarPathRefresh s1 delay
  { s2 with needsRedraw := true }

/-- `GameScene.rebuildSpawnOrder`: snapshots the spawn points into the rotation
and clamps the cursor with a modulo. -/
def rebuildSpawnOrder (s : Scene) : Scene :=
  let order := s.spawnOrder
  let snapshot := s.spawnPoints
  let _ := order
  { s with spawnOrder := snapshot,
           spawnCursor :=
             if snapshot.length = 0 then 0 else s.spawnCursor % snapshot.length }

/-- `GameScene.setRoadValue`: no-op (returning `false`) outside bounds or when
the value is unchanged; otherwise writes the cell, mirrors the complement into
the walk matrix, invalidates paths, maintains the road counter (clamped at 0 by
`Nat` subtraction, as `Math.max(0, roadCount - 1)`), and on erase removes any
spawn/destination registered at the cell, rebuilding the spawn order when a
spawn was removed. -/
def setRoadValue (s : Scene) (x y : Int) (value : Nat) : Scene × Bool :=
  if insideB gridWidth gridHeight (x, y) = false then (s, false)
  else if s.grid (x, y) = value then (s, false)
  else
    let s1 := { s with grid := updateFn s.grid (x, y) value,
                       walkMatrix :=
                         updateFn s.walkMatrix (x, y) (if value = 1 then 0 else 1) }
    let s2 := invalidatePaths s1 (1 / 4)
    if value = 1 then
      ({ s2 with roadCount := s2.roadCount + 1 }, true)
    else
      let s3 := { s2 with roadCount := s2.roadCount - 1 }
      let removedSpawn := decide ((x, y) ∈ s3.spawnPoints)
      let s4 := { s3 with
        spawnPoints := s3.spawnPoints.filter (fun c => decide (c ≠ (x, y))),
        destinationPoints :=
          s3.destinationPoints.filter (fun c => decide (c ≠ (x, y))) }
      (if removedSpawn then rebuildSpawnOrder s4 else s4, true)

/-- `GameScene.toggleSpawn`: rejected with only a flash message off-road;
otherwise toggles membership of the cell in the spawn set, rebuilds the spawn
order and invalidates paths with the shortened 0.1s delay. -/
def toggleSpawn (s : Scene) (cell : Cell) : Scene :=
  if isRoadS s cell = false then
    showFlash s "Place a spawn on a road tile" (6 / 5)
  else
    let s1 :=
      if cell ∈ s.spawnPoints then
        showFlash
          { s with spawnPoints := s.spawnPoints.filter (fun c => decide (c ≠ cell)) }
          "Spawn removed" (6 / 5)
      else
        showFlash { s with spawnPoints := s.spawnPoints ++ [cell] }
          "Spawn added" (6 / 5)
    invalidatePaths (rebuildSpawnOrder s1) (1 / 10)

/-- `GameScene.toggleDestination`: rejected with only a flash message off-road;
otherwise toggles membership in the destination set and invalidates paths. -/
def toggleDestination (s : Scene) (cell : Cell) : Scene :=
  if isRoadS s cell = false then
    showFlash s "Place a destination on a road tile" (6 / 5)
  else
    let s1 :=
      if cell ∈ s.destinationPoints then
        showFlash
          { s with destinationPoints :=
              s.destinationPoints.filter (fun c => decide (c ≠ cell)) }
          "Destination removed" (6 / 5)
      else
        showFlash { s with destinationPoints := s.destinationPoints ++ [cell] }
          "Destination added" (6 / 5)
    invalidatePaths s1 (1 / 10)

/-- Car body width in world units (`tileSize * 0.7`). -/
def carBodyWidth : ℚ := tileSize * (7 / 10)

/-- Car body height in world units (`tileSize * 0.4`). -/
def carBodyHeight : ℚ := tileSize * (4 / 10)

/-- `GameScene.createCar`: returns unchanged on a path shorter than 2 cells
(the guard fires before any state is touched); otherwise builds the world
waypoints, the initial heading, allocates a rendering container (counted in
`spritesCreated`) and pushes a car with the pre-incremented id.  The randomly
drawn `Phaser.Math.Between(60, 110)` max speed is passed in as an argument. -/
def createCar (s : Scene) (path : List Cell) (randomMaxSpeed : ℚ) : Scene :=
  if path.length < 2 then s
  else
    let gridPath := path.map (fun cell => cell)
    let worldPath := gridPath.map cellToWorld
    let start := worldPath.headI
    let next := (worldPath.get? 1).getD start
    let initialHeading := normalizeGrid (next.1 - start.1, next.2 - start.2)
    let car : Car :=
      { id := s.carId + 1,
        path := worldPath,
        gridPath := gridPath,
        destination := (gridPath.getLast?).getD (0, 0),
        targetIndex := 1,
        position := start,
        heading := initialHeading,
        currentSpeed := 0,
        targetSpeed := 0,
        maxSpeed := randomMaxSpeed,
        width := carBodyHeight,
        length := carBodyWidth }
    { s with carId := s.carId + 1,
             cars := s.cars ++ [car],
             spritesCreated := s.spritesCreated + 1,
             statusTimer := 0 }

/-- `GameScene.removeCarAt`: splices the car out of the list (the sprite
destroy and spatial-index removal act on excluded collaborators). -/
def removeCarAt (s : Scene) (index : Nat) : Scene :=
  { s with cars := s.cars.eraseIdx index, statusTimer := 0 }

/-- `GameScene.clearCars`: destroys every sprite, empties the car list and
resets the id counter to 0. -/
def clearCars (s : Scene) : Scene :=
  { s with cars := [], carId := 0, statusTimer := 0 }

/-- `GameScene.initializeGrid` together with the constructor defaults: an
all-empty grid whose walk matrix is all-blocked, empty point sets, no cars. -/
def initScene : Scene :=
  { grid := fun _ => 0,
    walkMatrix := fun _ => 1,
    roadCount := 0,
    pathCache := { entries := [], limit := 2048 },
    spawnPoints := [],
    destinationPoints := [],
    spawnOrder := [],
    spawnCursor := 0,
    cars := [],
    carId := 0,
    spritesCreated := 0,
    carPathsDirty := false,
    carPathRefreshDelay := 0,
    needsRedraw := false,
    flashMessage := "",
    flashTimer := 0,
    statusTimer := 0 }

/-- Folds `setRoadValue(x, y, 1)` over a list of cells, as the seeding loops do. -/
def paintRoadCells (s : Scene) (cells : List Cell) : Scene :=
  cells.foldl (fun acc c => (setRoadValue acc c.1 c.2 1).1) s

/-- Insertion into a JS `Map` keyed by `cellKey` (value equal to the key's
cell): position kept if present, appended if absent. -/
def mapSetCell (l : List Cell) (c : Cell) : List Cell :=
  if c ∈ l then l else l ++ [c]

/-- The cells painted by `seedSimpleRoads`, in paint order: the horizontal main
road (`x` from 3 to `gridWidth - 4` at `midY = 16`), the vertical main road
(`y` from 3 to `gridHeight - 4` at `midX = 24`), the two side columns at
`quarterX = 12` and `threeQuarterX = 36` (`y` from `midY - 6` to `midY + 6`,
interleaved as in the source loop), and the four key points. -/
def seedCells : List Cell :=
  ((List.range (gridWidth - 6)).map (fun i => ((i : Int) + 3, (16 : Int)))) ++
  ((List.range (gridHeight - 6)).map (fun i => ((24 : Int), (i : Int) + 3))) ++
  ((List.range 13).flatMap
    (fun i => [((12 : Int), (i : Int) + 10), ((36 : Int), (i : Int) + 10)])) ++
  [((24 : Int), (4 : Int)), ((24 : Int), (27 : Int)),
   ((4 : Int), (16 : Int)), ((43 : Int), (16 : Int))]

/-- The second half of `seedSimpleRoads`: registers the two seeded spawn points
and the two seeded destination points and rebuilds the spawn order. -/
def seedPoints (s1 : Scene) : Scene :=
  rebuildSpawnOrder { s1 with
    spawnPoints := mapSetCell (mapSetCell s1.spawnPoints (24, 4)) (4, 16),
    destinationPoints :=
      mapSetCell (mapSetCell s1.destinationPoints (24, 27)) (43, 16) }

/-- `GameScene.seedSimpleRoads`: the initial cross-shaped network (horizontal
and vertical main roads, two side columns, four key points), plus two spawn and
two destination points, with the spawn order rebuilt. -/
def seedSimpleRoads (s : Scene) : Scene :=
  seedPoints (paintRoadCells s seedCells)

/-- The first half of `GameScene.resetMap`, before reseeding: zeroes the grid
and walk matrix, clears spawn points (rebuilding the spawn order), destination
points, path cache, road counter and cars. -/
def resetMapBase (s : Scene) : Scene :=
  let s1 := { s with grid := fun _ => 0, walkMatrix := fun _ => 1 }
  let s2 := rebuildSpawnOrder { s1 with spawnPoints := [] }
  let s3 := { s2 with destinationPoints := [],
                      pathCache := s2.pathCache.clear,
                      roadCount := 0 }
  clearCars s3

/-- `GameScene.resetMap`: zeroes the grid and walk matrix, clears points, cache
and cars, reseeds the network and flashes a message (`forceRedraw` clears the
redraw flag). -/
def resetMap (s : Scene) : Scene :=
  showFlash { seedSimpleRoads (resetMapBase s) with needsRedraw := false }
    "Map reset" 2

/-- Modelled from the spec: walkability of a cell for the search, combining the
`PF.Grid` bounds check with the library convention that a stored matrix value 0
is free and 1 is blocked ("the search library's matrix stores 1=blocked/0=free").
The library `pathfinding` is a dependency whose source is not in the repository;
only its type declarations (`src/types/pathfinding.d.ts`) and its caller
`GameScene.findPath` are. -/
def walkableB (walk : Cell → Nat) (W H : Nat) (c : Cell) : Bool :=
  insideB W H c && decide (walk c = 0)

/-- Modelled from the spec: one expansion step of the uninformed grid search —
the walkable, not yet visited 4-neighbours of the current frontier, without
duplicates. -/
def bfsStep (walk : Cell → Nat) (W H : Nat) (visited frontier : List Cell) :
    List Cell :=
  ((frontier.flatMap neighborsOf).filter
      (fun c => walkableB walk W H c && !(decide (c ∈ visited)))).dedup

/-- Modelled from the spec: the visited set and frontier of the grid search
after `k` expansion steps from `start`.  A non-walkable start yields an empty
search ("a cell is traversable by the pathfinder iff it is a road tile"). -/
def bfsLayers (walk : Cell → Nat) (W H : Nat) (start : Cell) :
    Nat → List Cell × List Cell
  | 0 => if walkableB walk W H start then ([start], [start]) else ([], [])
  | k + 1 =>
    let vf := bfsLayers walk W H start k
    let f2 := bfsStep walk W H vf.1 vf.2
    (vf.1 ++ f2, f2)

/-- Modelled from the spec: scans the search layers for the target, returning
the number of steps at which it first appears; stops when the frontier is
exhausted or the fuel runs out. -/
def bfsFindAux (walk : Cell → Nat) (W H : Nat) (target : Cell) :
    Nat → Nat → List Cell → List Cell → Option Nat
  | 0, k, _, f => if decide (target ∈ f) then some k else none
  | fuel + 1, k, v, f =>
    if decide (target ∈ f) then some k
    else if f.isEmpty then none
    else bfsFindAux walk W H target fuel (k + 1) (v ++ bfsStep walk W H v f)
        (bfsStep walk W H v f)

/-- Modelled from the spec: number of expansion steps from `start` at which
`target` is reached, bounded by the cell count of the grid. -/
def bfsDist (walk : Cell → Nat) (W H : Nat) (start target : Cell) : Option Nat :=
  let vf := bfsLayers walk W H start 0
  bfsFindAux walk W H target (W * H) 0 vf.1 vf.2

/-- Modelled from the spec: reconstructs the cell sequence to a cell of layer
`k` by walking back through parents, one layer at a time (the `none` branch is
unreachable for cells actually in layer `k`). -/
def bfsBuild (walk : Cell → Nat) (W H : Nat) (start : Cell) :
    Nat → Cell → List Cell
  | 0, c => [c]
  | k + 1, c =>
    match (bfsLayers walk W H start k).2.find? (fun p => adjacent p c) with
    | some p => bfsBuild walk W H start k p ++ [c]
    | none => [c]

/-- Modelled from the spec: the grid search run by `findPath` on a cache miss
(`this.finder.findPath(...)` over `new PF.Grid(this.walkMatrix)`): 4-directional,
unit step cost, shortest cell sequence from start to end inclusive, empty when
unreachable. -/
def searchPath (walk : Cell → Nat) (W H : Nat) (start target : Cell) :
    List Cell :=
  match bfsDist walk W H start target with
  | some k => bfsBuild walk W H start k target
  | none => []

/-- `GameScene.findPath`: checks the cache under the (start, end) key first; on
a miss runs the search and caches any non-empty result.  The source's string
key `"sx,sy:ex,ey"` is an injective encoding of the cell pair, modelled by the
pair itself. -/
def findPathW (walk : Cell → Nat) (W H : Nat) (cache : PathCache (Cell × Cell))
    (start target : Cell) : List Cell × PathCache (Cell × Cell) :=
  match cache.get (start, target) with
  | some cached => (cached, cache)
  | none =>
    let path := searchPath walk W H start target
    if 0 < path.length then (path, cache.set (start, target) path)
    else (path, cache)

/-- `GameScene.findPath` on the scene state: reads the walk matrix and updates
the scene's cache. -/
def Scene.findPath (s : Scene) (start target : Cell) : List Cell × Scene :=
  let r := findPathW s.walkMatrix gridWidth gridHeight s.pathCache start target
  (r.1, { s with pathCache := r.2 })

/-- Squared Euclidean distance from a world position to a cell's tile center,
as computed inside `findNearestRoadCell`. -/
def sqDistToCellCenter (pos : ℚ × ℚ) (c : Cell) : ℚ :=
  let cx := (c.1 : ℚ) * tileSize + tileSize / 2
  let cy := (c.2 : ℚ) * tileSize + tileSize / 2
  (pos.1 - cx) * (pos.1 - cx) + (pos.2 - cy) * (pos.2 - cy)

/-- The `(dx, dy)` offsets scanned at one ring of `findNearestRoadCell`, in
source scan order (`dy` outer from `-radius`, `dx` inner), keeping exactly the
offsets of Chebyshev norm `radius`. -/
def ringOffsets (radius : Nat) : List (Int × Int) :=
  let line := (List.range (2 * radius + 1)).map (fun (i : Nat) => (i : Int) - radius)
  (line.flatMap (fun dy => line.map (fun dx => (dx, dy)))).filter
    (fun d => decide (max d.1.natAbs d.2.natAbs = radius))

/-- One candidate update of the `findNearestRoadCell` ring scan: skip unless
the offset cell is an in-bounds road (the source's `isInside` check is
subsumed by `isRoad`), then keep it when strictly closer than the best so far. -/
def ringStep (s : Scene) (pos : ℚ × ℚ) (base : Cell)
    (acc : Option (Cell × ℚ)) (d : Int × Int) : Option (Cell × ℚ) :=
  let c : Cell := (base.1 + d.1, base.2 + d.2)
  if isRoadS s c then
    let dist := sqDistToCellCenter pos c
    match acc with
    | none => some (c, dist)
    | some best => if dist < best.2 then some (c, dist) else acc
  else acc

/-- The inner per-ring scan of `findNearestRoadCell`: folds over the ring in
scan order, keeping the first road cell of strictly smallest squared distance
to the query position (out-of-bounds and non-road cells are skipped). -/
def ringScan (s : Scene) (pos : ℚ × ℚ) (base : Cell) (radius : Nat) :
    Option (Cell × ℚ) :=
  (ringOffsets radius).foldl (ringStep s pos base) none

/-- Specification of the ring-scan accumulator after a list of offsets has been
examined: `none` exactly when no offset so far was an in-bounds road, otherwise
the best candidate is one of the scanned road cells, carries its true squared
distance and is Euclidean-closest among the scanned road cells. -/
def RingAcc (s : Scene) (pos : ℚ × ℚ) (base : Cell) (seen : List (Int × Int)) :
    Option (Cell × ℚ) → Prop
  | none => ∀ d ∈ seen, isRoadS s (base.1 + d.1, base.2 + d.2) = false
  | some best =>
      (∃ d ∈ seen, best.1 = (base.1 + d.1, base.2 + d.2)) ∧
      isRoadS s best.1 = true ∧
      best.2 = sqDistToCellCenter pos best.1 ∧
      ∀ d ∈ seen, isRoadS s (base.1 + d.1, base.2 + d.2) = true →
        best.2 ≤ sqDistToCellCenter pos (base.1 + d.1, base.2 + d.2)

/-- The expanding-ring loop of `findNearestRoadCell`: tries radii
`radius, radius+1, ...` while `remaining` rings are left, returning the best
candidate of the first ring holding any road cell. -/
def ringLoop (s : Scene) (pos : ℚ × ℚ) (base : Cell) :
    Nat → Nat → Option Cell
  | _, 0 => none
  | radius, remaining + 1 =>
    match ringScan s pos base radius with
    | some best => some best.1
    | none => ringLoop s pos base (radius + 1) remaining

/-- Clamp of an integer to a closed interval, `Phaser.Math.Clamp`. -/
def clampInt (v lo hi : Int) : Int := max lo (min v hi)

/-- `GameScene.findNearestRoadCell`: the containing cell of the query position
(clamped into bounds when outside) if it is a road, else an expanding ring
search up to `max 1 maxRadius` rings. -/
def findNearestRoadCell (s : Scene) (pos : ℚ × ℚ) (maxRadius : Nat) :
    Option Cell :=
  let bx : Int := ⌊pos.1 / tileSize⌋
  let byy : Int := ⌊pos.2 / tileSize⌋
  let base : Cell :=
    if insideB gridWidth gridHeight (bx, byy) then (bx, byy)
    else (clampInt bx 0 ((gridWidth : Int) - 1), clampInt byy 0 ((gridHeight : Int) - 1))
  if isRoadS s base then some base
  else ringLoop s pos base 1 (max 1 maxRadius)

/-- `GameScene.findNearestRoadCell` with its default radius
`Math.max(gridWidth, gridHeight)`. -/
def findNearestRoadCellDefault (s : Scene) (pos : ℚ × ℚ) : Option Cell :=
  findNearestRoadCell s pos (max gridWidth gridHeight)

/-- `GameScene.computeDesiredSpeed`: starts from the car's max speed; for every
neighbour ahead of the car (positive projection on the heading), roughly in
lane (lateral offset at most 0.9 of the car's width) and closer than the safe
following distance `max(1.5 * length, currentSpeed * 0.6 + 20)`, caps the
desired speed at `max(20, neighbourSpeed - 10)`.  The JS identity test
`other === car` is modelled by the unique car id. -/
def computeDesiredSpeed (car : Car) (nearby : List Car) : ℚ :=
  nearby.foldl
    (fun desired other =>
      if other.id = car.id then desired
      else
        let relX := other.position.1 - car.position.1
        let relY := other.position.2 - car.position.2
        let forwardness := relX * car.heading.1 + relY * car.heading.2
        if forwardness ≤ 0 then desired
        else
          let lateral := |relX * car.heading.2 - relY * car.heading.1|
          if car.width * (9 / 10) < lateral then desired
          else
            let safeDistance := max (car.length * (3 / 2)) (car.currentSpeed * (3 / 5) + 20)
            if forwardness < safeDistance then
              min desired (max 20 (other.currentSpeed - 10))
            else desired)
    car.maxSpeed

/-- The speed cap contributed by one blocking neighbour,
`Math.max(20, other.currentSpeed - 10)`. -/
def speedCap (other : Car) : ℚ := max 20 (other.currentSpeed - 10)

/-- Written from the spec's avoidance-rule wording, for comparison with
`computeDesiredSpeed`: the neighbours that qualify as "ahead, in-lane and
closer than the safe distance". -/
def qualifyingNeighbors (car : Car) (nearby : List Car) : List Car :=
  nearby.filter (fun other =>
    let relX := other.position.1 - car.position.1
    let relY := other.position.2 - car.position.2
    let forwardness := relX * car.heading.1 + relY * car.heading.2
    let lateral := |relX * car.heading.2 - relY * car.heading.1|
    let safeDistance := max (car.length * (3 / 2)) (car.currentSpeed * (3 / 5) + 20)
    decide (other.id ≠ car.id ∧ 0 < forwardness ∧
      lateral ≤ car.width * (9 / 10) ∧ forwardness < safeDistance))

/-- Written from the spec's avoidance-rule wording, for comparison with
`computeDesiredSpeed`: start at the max speed and take the minimum cap over all
qualifying neighbours. -/
def desiredSpeedSpec (car : Car) (nearby : List Car) : ℚ :=
  (qualifyingNeighbors car nearby).foldl (fun d other => min d (speedCap other))
    car.maxSpeed

/-- A JS heap of `GridPoint` objects: addresses map to `(x, y)` values and
`next` is the next fresh address.  This models object identity for the
defensive-copy behaviour of the path cache. -/
structure Heap where
  data : Nat → Int × Int
  next : Nat

/-- Mutation of the object at address `a` (`cell.x = ...` style writes). -/
def Heap.write (h : Heap) (a : Nat) (v : Int × Int) : Heap :=
  { data := fun b => if b = a then v else h.data b, next := h.next }

/-- Allocation of a list of fresh objects holding the given values, returning
their addresses in order. -/
def Heap.allocList : Heap → List (Int × Int) → Heap × List Nat
  | h, [] => (h, [])
  | h, v :: vs =>
    let h1 : Heap :=
      { data := fun b => if b = h.next then v else h.data b, next := h.next + 1 }
    let r := Heap.allocList h1 vs
    (r.1, h.next :: r.2)

/-- The defensive copy `path.map(cell => ({ ...cell }))`: reads each referenced
object and allocates a fresh object with the same fields. -/
def heapCopyPath (h : Heap) (refs : List Nat) : Heap × List Nat :=
  Heap.allocList h (refs.map h.data)

/-- The `PathCache` store at the heap level: entries hold object references,
as the JS `Map<string, GridPoint[]>` does. -/
structure HeapPathCache where
  entries : List (String × List Nat)
  limit : Nat

/-- `PathCache.set` at the heap level: snapshots the argument path into fresh
objects, re-inserts the key at the newest position and evicts the oldest entry
when over capacity. -/
def HeapPathCache.hput (h : Heap) (cache : HeapPathCache) (key : String)
    (path : List Nat) : Heap × HeapPathCache :=
  let r := heapCopyPath h path
  let afterDelete := cache.entries.eraseP (fun e => decide (e.1 = key))
  let inserted := afterDelete ++ [(key, r.2)]
  (r.1,
   { entries := if cache.limit < inserted.length then inserted.tail else inserted,
     limit := cache.limit })

/-- `PathCache.get` at the heap level: on a hit, returns a defensive copy of
the stored objects (fresh references); absence is a cache miss, not an error. -/
def HeapPathCache.hget (h : Heap) (cache : HeapPathCache) (key : String) :
    Heap × Option (List Nat) :=
  match cache.entries.find? (fun e => decide (e.1 = key)) with
  | some e =>
    let r := heapCopyPath h e.2
    (r.1, some r.2)
  | none => (h, none)

/-- Chain of 4-adjacent steps along a cell sequence. -/
def chainAdj (p : List Cell) : Prop :=
  List.Chain' (fun a b => adjacent a b = true) p

/-- A route along cells satisfying `road`, from `a` to `b` inclusive, moving
only by 4-directional unit steps. -/
def RoadPathOn (road : Cell → Bool) (p : List Cell) (a b : Cell) : Prop :=
  p ≠ [] ∧ p.head? = some a ∧ p.getLast? = some b ∧ chainAdj p ∧
    ∀ c ∈ p, road c = true

/-- Executable version of `chainAdj`, for concrete evaluation. -/
def chainAdjB : List Cell → Bool
  | [] => true
  | [_] => true
  | a :: b :: rest => adjacent a b && chainAdjB (b :: rest)

instance decidableChainAdj (p : List Cell) : Decidable (chainAdj p) :=
  decidable_of_iff (chainAdjB p = true) (by
    induction p with
    | nil =>
      unfold chainAdj
      simp [chainAdjB]
    | cons a rest ih =>
      cases rest with
      | nil =>
        unfold chainAdj
        simp [chainAdjB]
      | cons b rest2 =>
        unfold chainAdj at ih ⊢
        simp only [chainAdjB, Bool.and_eq_true_iff, List.chain'_cons, ih])

instance decidableRoadPathOn (road : Cell → Bool) (p : List Cell) (a b : Cell) :
    Decidable (RoadPathOn road p a b) :=
  inferInstanceAs (Decidable (p ≠ [] ∧ p.head? = some a ∧ p.getLast? = some b ∧
    chainAdj p ∧ ∀ c ∈ p, road c = true))

/-- All in-bounds cells of a `W × H` grid, as a duplicate-free list; used to
bound the length of duplicate-free road paths. -/
def allCellsList (W H : Nat) : List Cell :=
  (List.range W).flatMap
    (fun (x : Nat) => (List.range H).map (fun (y : Nat) => ((x : Int), (y : Int))))

/-- The walk matrix mirrors the road grid: a stored 0 (free) exactly at road
cells.  Maintained by every grid operation. -/
def WalkMirror (s : Scene) : Prop :=
  ∀ c : Cell, insideB gridWidth gridHeight c = true →
    (s.walkMatrix c = 0 ↔ s.grid c = 1)

/-- Every cache entry is the search result for its key under the current walk
matrix.  This holds of the empty cache, is preserved by `findPath`, and is
re-established by the `invalidatePaths` clear on every grid edit. -/
def CacheOK (s : Scene) : Prop :=
  ∀ k p, (k, p) ∈ s.pathCache.entries →
    p = searchPath s.walkMatrix gridWidth gridHeight k.1 k.2

/-- The car-level operations of the public interface: vehicle creation
(`createCar`, with the randomly drawn max speed as data), removal
(`removeCarAt`) and clearing (`clearCars`). -/
inductive CarOp
  | create (path : List Cell) (randomMaxSpeed : ℚ)
  | removeAt (index : Nat)
  | clear
  deriving DecidableEq

/-- Interpretation of one car operation on the scene. -/
def applyCarOp (s : Scene) : CarOp → Scene
  | .create p v => createCar s p v
  | .removeAt i => removeCarAt s i
  | .clear => clearCars s

/-- Runs a sequence of car operations, also returning the log of ids assigned
to the vehicles actually created (in creation order). -/
def runCarOps : Scene → List CarOp → Scene × List Nat
  | s, [] => (s, [])
  | s, op :: rest =>
    let s1 := applyCarOp s op
    let r := runCarOps s1 rest
    match op with
    | .create p _ => (r.1, (if p.length < 2 then [] else [s.carId + 1]) ++ r.2)
    | _ => r

/-- The grid-level operations named by the spec: single-cell edits
(`setRoadValue`), a full reset (`resetMap`) and bulk seeding
(`seedSimpleRoads`). -/
inductive GridOp
  | setRoad (x y : Int) (value : Nat)
  | reset
  | seed

/-- Interpretation of one grid operation on the scene. -/
def applyGridOp (s : Scene) : GridOp → Scene
  | .setRoad x y v => (setRoadValue s x y v).1
  | .reset => resetMap s
  | .seed => seedSimpleRoads s

/-- Runs a sequence of grid operations from a given state. -/
def runGridOps (s : Scene) (ops : List GridOp) : Scene :=
  ops.foldl applyGridOp s

/-- The one-neighbour step of the `computeDesiredSpeed` fold, named so the
fold can be reasoned about. -/
def desiredStep (car : Car) (desired : ℚ) (other : Car) : ℚ :=
  if other.id = car.id then desired
  else
    let relX := other.position.1 - car.position.1
    let relY := other.position.2 - car.position.2
    let forwardness := relX * car.heading.1 + relY * car.heading.2
    if forwardness ≤ 0 then desired
    else
      let lateral := |relX * car.heading.2 - relY * car.heading.1|
      if car.width * (9 / 10) < lateral then desired
      else
        let safeDistance := max (car.length * (3 / 2)) (car.currentSpeed * (3 / 5) + 20)
        if forwardness < safeDistance then
          min desired (max 20 (other.currentSpeed - 10))
        else desired

/-- Rejection outcome of the two toggle operations on a non-road cell: every
piece of simulation state listed by the spec is unchanged and only the
user-facing flash message is set. -/
def togglesRejected (s : Scene) (cell : Cell) : Prop :=
  ((toggleSpawn s cell).spawnPoints = s.spawnPoints ∧
   (toggleSpawn s cell).destinationPoints = s.destinationPoints ∧
   (toggleSpawn s cell).spawnOrder = s.spawnOrder ∧
   (toggleSpawn s cell).spawnCursor = s.spawnCursor ∧
   (toggleSpawn s cell).grid = s.grid ∧
   (toggleSpawn s cell).walkMatrix = s.walkMatrix ∧
   (toggleSpawn s cell).pathCache = s.pathCache ∧
   (toggleSpawn s cell).cars = s.cars ∧
   (toggleSpawn s cell).carId = s.carId ∧
   (toggleSpawn s cell).flashMessage = "Place a spawn on a road tile") ∧
  ((toggleDestination s cell).spawnPoints = s.spawnPoints ∧
   (toggleDestination s cell).destinationPoints = s.destinationPoints ∧
   (toggleDestination s cell).spawnOrder = s.spawnOrder ∧
   (toggleDestination s cell).spawnCursor = s.spawnCursor ∧
   (toggleDestination s cell).grid = s.grid ∧
   (toggleDestination s cell).walkMatrix = s.walkMatrix ∧
   (toggleDestination s cell).pathCache = s.pathCache ∧
   (toggleDestination s cell).cars = s.cars ∧
   (toggleDestination s cell).carId = s.carId ∧
   (toggleDestination s cell).flashMessage = "Place a destination on a road tile")

end RoadSim

namespace RoadSim

lemma computeDesiredSpeed_eq_foldl (car : Car) (nearby : List Car) :
    computeDesiredSpeed car nearby = nearby.foldl (desiredStep car) car.maxSpeed := by
  rfl

lemma desiredStep_ge (car : Car) (other : Car) (d : ℚ) (hd : 20 ≤ d) :
    20 ≤ desiredStep car d other := by
  simp only [desiredStep]
  split_ifs <;> first | exact hd | exact le_min hd (le_max_left _ _)

lemma foldl_desiredStep_ge (car : Car) :
    ∀ (l : List Car) (init : ℚ), 20 ≤ init →
      20 ≤ l.foldl (desiredStep car) init := by
  intro l
  induction l with
  | nil => intro init h; simpa using h
  | cons o l ih =>
    intro init h
    exact ih (desiredStep car init o) (desiredStep_ge car o init h)

lemma desiredStep_of_qualifying (car other : Car)
    (h : (decide (other.id ≠ car.id ∧
      0 < (other.position.1 - car.position.1) * car.heading.1 +
          (other.position.2 - car.position.2) * car.heading.2 ∧
      |(other.position.1 - car.position.1) * car.heading.2 -
          (other.position.2 - car.position.2) * car.heading.1| ≤ car.width * (9 / 10) ∧
      (other.position.1 - car.position.1) * car.heading.1 +
          (other.position.2 - car.position.2) * car.heading.2 <
        max (car.length * (3 / 2)) (car.currentSpeed * (3 / 5) + 20)) = true))
    (d : ℚ) :
    desiredStep car d other = min d (speedCap other) := by
  rw [decide_eq_true_eq] at h
  obtain ⟨h1, h2, h3, h4⟩ := h
  simp only [desiredStep, speedCap]
  rw [if_neg h1, if_neg (not_le.mpr h2), if_neg (not_lt.mpr h3), if_pos h4]

lemma desiredStep_of_not_qualifying (car other : Car)
    (h : ¬ (decide (other.id ≠ car.id ∧
      0 < (other.position.1 - car.position.1) * car.heading.1 +
          (other.position.2 - car.position.2) * car.heading.2 ∧
      |(other.position.1 - car.position.1) * car.heading.2 -
          (other.position.2 - car.position.2) * car.heading.1| ≤ car.width * (9 / 10) ∧
      (other.position.1 - car.position.1) * car.heading.1 +
          (other.position.2 - car.position.2) * car.heading.2 <
        max (car.length * (3 / 2)) (car.currentSpeed * (3 / 5) + 20)) = true))
    (d : ℚ) :
    desiredStep car d other = d := by
  rw [decide_eq_true_eq] at h
  simp only [desiredStep]
  by_cases hid : other.id = car.id
  · rw [if_pos hid]
  · rw [if_neg hid]
    by_cases hf : (other.position.1 - car.position.1) * car.heading.1 +
        (other.position.2 - car.position.2) * car.heading.2 ≤ 0
    · rw [if_pos hf]
    · rw [if_neg hf]
      by_cases hl : car.width * (9 / 10) <
          |(other.position.1 - car.position.1) * car.heading.2 -
            (other.position.2 - car.position.2) * car.heading.1|
      · rw [if_pos hl]
      · rw [if_neg hl]
        rw [if_neg]
        intro hs
        exact h ⟨hid, not_le.mp hf, not_lt.mp hl, hs⟩

lemma foldl_desiredStep_eq_spec (car : Car) :
    ∀ (l : List Car) (init : ℚ),
      l.foldl (desiredStep car) init =
        (qualifyingNeighbors car l).foldl (fun d other => min d (speedCap other)) init := by
  intro l
  induction l with
  | nil => intro init; rfl
  | cons o l ih =>
    intro init
    by_cases hq : (decide (o.id ≠ car.id ∧
        0 < (o.position.1 - car.position.1) * car.heading.1 +
            (o.position.2 - car.position.2) * car.heading.2 ∧
        |(o.position.1 - car.position.1) * car.heading.2 -
            (o.position.2 - car.position.2) * car.heading.1| ≤ car.width * (9 / 10) ∧
        (o.position.1 - car.position.1) * car.heading.1 +
            (o.position.2 - car.position.2) * car.heading.2 <
          max (car.length * (3 / 2)) (car.currentSpeed * (3 / 5) + 20)) = true)
    · have hstep := desiredStep_of_qualifying car o hq init
      have hfilter : qualifyingNeighbors car (o :: l) = o :: qualifyingNeighbors car l := by
        unfold qualifyingNeighbors
        rw [List.filter_cons, if_pos hq]
      rw [List.foldl_cons, hstep, hfilter, List.foldl_cons, ih]
    · have hstep := desiredStep_of_not_qualifying car o hq init
      have hfilter : qualifyingNeighbors car (o :: l) = qualifyingNeighbors car l := by
        unfold qualifyingNeighbors
        rw [List.filter_cons, if_neg hq]
      rw [List.foldl_cons, hstep, hfilter, ih]

/-- C4: the avoidance rule starts from the vehicle's max speed, considers only
neighbours strictly ahead, in lane (lateral offset within 0.9 of the width) and
closer than the safe distance `max(1.5*length, currentSpeed*0.6 + 20)`, caps the
desired speed at `max(20, neighbourSpeed - 10)` for each of them (minimum over
all), and therefore never drops below 20 when the vehicle's max speed is at
least 20. -/
theorem computeDesiredSpeed_floor_and_rule (car : Car) (nearby : List Car) :
    (20 ≤ car.maxSpeed → 20 ≤ computeDesiredSpeed car nearby) ∧
    computeDesiredSpeed car nearby = desiredSpeedSpec car nearby := by
  constructor
  · intro h
    rw [computeDesiredSpeed_eq_foldl]
    exact foldl_desiredStep_ge car nearby car.maxSpeed h
  · rw [computeDesiredSpeed_eq_foldl]
    unfold desiredSpeedSpec
    exact foldl_desiredStep_eq_spec car nearby car.maxSpeed

/-- C4 witness: a concrete stopped lead car 30 units ahead of a follower with
max speed 100 yields a desired speed of 20, at least 20 as claimed. -/
theorem computeDesiredSpeed_floor_and_rule_witness :
    (20 : ℚ) ≤ (100 : ℚ) ∧
      ((20 : ℚ) ≤
          computeDesiredSpeed
            { id := 1, path := [], gridPath := [], destination := (0, 0),
              targetIndex := 1, position := (0, 0), heading := (1, 0),
              currentSpeed := 50, targetSpeed := 0, maxSpeed := 100,
              width := carBodyHeight, length := carBodyWidth }
            [{ id := 2, path := [], gridPath := [], destination := (0, 0),
               targetIndex := 1, position := (30, 0), heading := (1, 0),
               currentSpeed := 0, targetSpeed := 0, maxSpeed := 100,
               width := carBodyHeight, length := carBodyWidth }] ∧
        computeDesiredSpeed
            { id := 1, path := [], gridPath := [], destination := (0, 0),
              targetIndex := 1, position := (0, 0), heading := (1, 0),
              currentSpeed := 50, targetSpeed := 0, maxSpeed := 100,
              width := carBodyHeight, length := carBodyWidth }
            [{ id := 2, path := [], gridPath := [], destination := (0, 0),
               targetIndex := 1, position := (30, 0), heading := (1, 0),
               currentSpeed := 0, targetSpeed := 0, maxSpeed := 100,
               width := carBodyHeight, length := carBodyWidth }] =
          desiredSpeedSpec
            { id := 1, path := [], gridPath := [], destination := (0, 0),
              targetIndex := 1, position := (0, 0), heading := (1, 0),
              currentSpeed := 50, targetSpeed := 0, maxSpeed := 100,
              width := carBodyHeight, length := carBodyWidth }
            [{ id := 2, path := [], gridPath := [], destination := (0, 0),
               targetIndex := 1, position := (30, 0), heading := (1, 0),
               currentSpeed := 0, targetSpeed := 0, maxSpeed := 100,
               width := carBodyHeight, length := carBodyWidth }]) := by
  refine ⟨by norm_num, ?_⟩
  have h := computeDesiredSpeed_floor_and_rule
    { id := 1, path := [], gridPath := [], destination := (0, 0),
      targetIndex := 1, position := (0, 0), heading := (1, 0),
      currentSpeed := 50, targetSpeed := 0, maxSpeed := 100,
      width := carBodyHeight, length := carBodyWidth }
    [{ id := 2, path := [], gridPath := [], destination := (0, 0),
       targetIndex := 1, position := (30, 0), heading := (1, 0),
       currentSpeed := 0, targetSpeed := 0, maxSpeed := 100,
       width := carBodyHeight, length := carBodyWidth }]
  exact ⟨h.1 (by norm_num), h.2⟩

/-- C10: `createCar` on a path of fewer than two cells is a complete no-op:
the scene (car list, id counter, rendering-handle counter included) is
returned unchanged. -/
theorem createCar_short_path_noop (s : Scene) (path : List Cell)
    (randomMaxSpeed : ℚ) (h : path.length < 2) :
    createCar s path randomMaxSpeed = s := by
  unfold createCar
  rw [if_pos h]

/-- C10 witness: a singleton path is rejected without touching the state. -/
theorem createCar_short_path_noop_witness :
    ([((0 : Int), (0 : Int))] : List Cell).length < 2 ∧
      createCar initScene [((0 : Int), (0 : Int))] 80 = initScene :=
  ⟨by decide, createCar_short_path_noop initScene [((0 : Int), (0 : Int))] 80 (by decide)⟩

/-- C9: on a non-road cell both `toggleSpawn` and `toggleDestination` change
nothing but the flash message: spawn set, destination set, spawn order and
cursor, grid, walk matrix, path cache, cars and id counter are untouched. -/
theorem toggles_reject_off_road (s : Scene) (cell : Cell)
    (h : isRoadS s cell = false) : togglesRejected s cell := by
  simp [togglesRejected, toggleSpawn, toggleDestination, showFlash, h]

/-- C9 witness: the origin of the initial empty grid is not a road, and both
toggles are rejected there without state change. -/
theorem toggles_reject_off_road_witness :
    isRoadS initScene ((0 : Int), (0 : Int)) = false ∧
      togglesRejected initScene ((0 : Int), (0 : Int)) :=
  ⟨by decide, toggles_reject_off_road initScene ((0 : Int), (0 : Int)) (by decide)⟩

lemma rebuildSpawnOrder_grid (s : Scene) : (rebuildSpawnOrder s).grid = s.grid := rfl

lemma rebuildSpawnOrder_walkMatrix (s : Scene) :
    (rebuildSpawnOrder s).walkMatrix = s.walkMatrix := rfl

lemma walkMirror_setRoadValue (s : Scene) (x y : Int) (v : Nat)
    (h : WalkMirror s) : WalkMirror (setRoadValue s x y v).1 := by
  intro c hc
  simp only [setRoadValue, invalidatePaths, scheduleCarPathRefresh, PathCache.clear]
  split_ifs with h1 h2 h3
  · exact h c hc
  · exact h c hc
  · -- painting a road: value = 1
    simp only [updateFn]
    by_cases hcxy : c = (x, y)
    · simp [hcxy, h3]
    · simp only [if_neg hcxy]
      exact h c hc
  · -- erasing: both spawn-removal outcomes share the same grid and walk matrix
    rw [apply_ite Scene.walkMatrix, apply_ite Scene.grid, rebuildSpawnOrder_walkMatrix,
      rebuildSpawnOrder_grid, ite_self, ite_self]
    simp only [updateFn]
    by_cases hcxy : c = (x, y)
    · simp [hcxy, h3]
    · simp only [if_neg hcxy]
      exact h c hc

lemma walkMirror_paintRoadCells (cells : List Cell) :
    ∀ (s : Scene), WalkMirror s → WalkMirror (paintRoadCells s cells) := by
  induction cells with
  | nil => intro s h; exact h
  | cons c rest ih =>
    intro s h
    exact ih (setRoadValue s c.1 c.2 1).1 (walkMirror_setRoadValue s c.1 c.2 1 h)

lemma seedPoints_walkMatrix (t : Scene) : (seedPoints t).walkMatrix = t.walkMatrix := rfl

lemma seedPoints_grid (t : Scene) : (seedPoints t).grid = t.grid := rfl

lemma seedSimpleRoads_eq (s : Scene) :
    seedSimpleRoads s = seedPoints (paintRoadCells s seedCells) := rfl

lemma walkMirror_seedSimpleRoads (s : Scene) (h : WalkMirror s) :
    WalkMirror (seedSimpleRoads s) := by
  intro c hc
  rw [seedSimpleRoads_eq, seedPoints_walkMatrix, seedPoints_grid]
  exact walkMirror_paintRoadCells seedCells s h c hc

lemma resetMapBase_walkMatrix (s : Scene) :
    (resetMapBase s).walkMatrix = fun _ => 1 := rfl

lemma resetMapBase_grid (s : Scene) :
    (resetMapBase s).grid = fun _ => 0 := rfl

lemma resetMap_eq (s : Scene) :
    resetMap s =
      showFlash { seedSimpleRoads (resetMapBase s) with needsRedraw := false }
        "Map reset" 2 := rfl

lemma walkMirror_showFlash (t : Scene) (m : String) (d : ℚ) (h : WalkMirror t) :
    WalkMirror (showFlash t m d) := fun c hc => h c hc

lemma walkMirror_needsRedraw (t : Scene) (h : WalkMirror t) :
    WalkMirror { t with needsRedraw := false } := fun c hc => h c hc

lemma walkMirror_resetMapBase (s : Scene) : WalkMirror (resetMapBase s) := by
  intro c hc
  rw [resetMapBase_walkMatrix, resetMapBase_grid]
  simp

lemma walkMirror_resetMap (s : Scene) : WalkMirror (resetMap s) := by
  rw [resetMap_eq]
  exact walkMirror_showFlash _ _ _
    (walkMirror_needsRedraw _
      (walkMirror_seedSimpleRoads _ (walkMirror_resetMapBase s)))

lemma walkMirror_applyGridOp (s : Scene) (op : GridOp) (h : WalkMirror s) :
    WalkMirror (applyGridOp s op) := by
  cases op with
  | setRoad x y v => exact walkMirror_setRoadValue s x y v h
  | reset => exact walkMirror_resetMap s
  | seed => exact walkMirror_seedSimpleRoads s h

lemma walkMirror_runGridOps (ops : List GridOp) :
    ∀ (s : Scene), WalkMirror s → WalkMirror (runGridOps s ops) := by
  induction ops with
  | nil => intro s h; exact h
  | cons op rest ih =>
    intro s h
    exact ih (applyGridOp s op) (walkMirror_applyGridOp s op h)

lemma walkMirror_initScene : WalkMirror initScene := by
  intro c hc
  simp [initScene]

lemma isRoadS_iff (s : Scene) (c : Cell) :
    isRoadS s c = true ↔
      insideB gridWidth gridHeight c = true ∧ s.grid c = 1 := by
  simp [isRoadS]

/-- C2: after any sequence of grid operations from the initial state, the
stored search matrix is the complement of the road matrix on every in-bounds
cell (`walkMatrix = 0` exactly where `grid = 1`), and `isRoad` holds exactly on
in-bounds road cells. -/
theorem walk_matrix_complement_invariant (ops : List GridOp) (c : Cell)
    (h : insideB gridWidth gridHeight c = true) :
    ((runGridOps initScene ops).walkMatrix c = 0 ↔
        (runGridOps initScene ops).grid c = 1) ∧
    (isRoadS (runGridOps initScene ops) c = true ↔
        insideB gridWidth gridHeight c = true ∧
          (runGridOps initScene ops).grid c = 1) :=
  ⟨walkMirror_runGridOps ops initScene walkMirror_initScene c h,
   isRoadS_iff (runGridOps initScene ops) c⟩

/-- C2 witness: painting cell (5, 5) leaves a state where the walk matrix holds
0 exactly because the cell is a road, and `isRoad` agrees. -/
theorem walk_matrix_complement_invariant_witness :
    insideB gridWidth gridHeight ((5 : Int), (5 : Int)) = true ∧
      (((runGridOps initScene [GridOp.setRoad 5 5 1]).walkMatrix (5, 5) = 0 ↔
          (runGridOps initScene [GridOp.setRoad 5 5 1]).grid (5, 5) = 1) ∧
        (isRoadS (runGridOps initScene [GridOp.setRoad 5 5 1]) (5, 5) = true ↔
          insideB gridWidth gridHeight ((5 : Int), (5 : Int)) = true ∧
            (runGridOps initScene [GridOp.setRoad 5 5 1]).grid (5, 5) = 1)) :=
  ⟨by decide,
   walk_matrix_complement_invariant [GridOp.setRoad 5 5 1] (5, 5) (by decide)⟩

lemma eraseP_key_of_not_mem {K V : Type} [DecidableEq K]
    (l : List (K × V)) (k : K) (h : k ∉ l.map Prod.fst) :
    l.eraseP (fun e => decide (e.1 = k)) = l := by
  induction l with
  | nil => rfl
  | cons e l ih =>
    rw [List.map_cons, List.mem_cons] at h
    push_neg at h
    have h1 : ¬ e.1 = k := fun hh => h.1 hh.symm
    simp [List.eraseP_cons, h1, ih h.2]

lemma mapFst_eraseP_key {K V : Type} [DecidableEq K]
    (l : List (K × V)) (k : K) :
    (l.eraseP (fun e => decide (e.1 = k))).map Prod.fst =
      (l.map Prod.fst).erase k := by
  induction l with
  | nil => rfl
  | cons e l ih =>
    by_cases h : e.1 = k
    · simp [List.eraseP_cons, List.erase_cons, h]
    · simp [List.eraseP_cons, List.erase_cons, h, ih]

lemma map_tail_eq {α β : Type} (f : α → β) (l : List α) :
    l.tail.map f = (l.map f).tail := by
  cases l <;> rfl

lemma pathCache_set_limit {K : Type} [DecidableEq K]
    (c : PathCache K) (k : K) (p : List Cell) : (c.set k p).limit = c.limit := rfl

lemma foldl_pathCache_set_limit {K : Type} [DecidableEq K] (p : List Cell) :
    ∀ (ks : List K) (c : PathCache K),
      (ks.foldl (fun acc k => acc.set k p) c).limit = c.limit := by
  intro ks
  induction ks with
  | nil => intro c; rfl
  | cons k rest ih =>
    intro c
    rw [List.foldl_cons, ih (c.set k p), pathCache_set_limit]

lemma pathCache_set_entries_fresh {K : Type} [DecidableEq K]
    (c : PathCache K) (k : K) (p : List Cell)
    (hk : k ∉ c.entries.map Prod.fst) (hlen : c.entries.length < c.limit) :
    (c.set k p).entries = c.entries ++ [(k, p)] := by
  simp only [PathCache.set, eraseP_key_of_not_mem c.entries k hk, List.map_id']
  rw [if_neg (by
    rw [List.length_append, List.length_singleton]
    omega)]

lemma pathCache_set_entries_evict {K : Type} [DecidableEq K]
    (c : PathCache K) (k : K) (p : List Cell)
    (hk : k ∉ c.entries.map Prod.fst) (hlen : c.limit < c.entries.length + 1) :
    (c.set k p).entries = (c.entries ++ [(k, p)]).tail := by
  simp only [PathCache.set, eraseP_key_of_not_mem c.entries k hk, List.map_id']
  rw [if_pos (by
    rw [List.length_append, List.length_singleton]
    omega)]

lemma foldl_pathCache_set_fresh {K : Type} [DecidableEq K] (p : List Cell) :
    ∀ (ks : List K) (c : PathCache K),
      ks.Nodup → (∀ k ∈ ks, k ∉ c.entries.map Prod.fst) →
      c.entries.length + ks.length ≤ c.limit →
      (ks.foldl (fun acc k => acc.set k p) c).entries
        = c.entries ++ ks.map (fun k => (k, p)) := by
  intro ks
  induction ks with
  | nil => intro c _ _ _; simp
  | cons k rest ih =>
    intro c hnd hfresh hlen
    rw [List.length_cons] at hlen
    have hkfresh : k ∉ c.entries.map Prod.fst := hfresh k (List.mem_cons_self k rest)
    have hset := pathCache_set_entries_fresh c k p hkfresh (by omega)
    have hlimit : (c.set k p).limit = c.limit := rfl
    have hrest : (rest.foldl (fun acc k => acc.set k p) (c.set k p)).entries
        = (c.set k p).entries ++ rest.map (fun k => (k, p)) := by
      refine ih (c.set k p) (List.Nodup.of_cons hnd) ?_ ?_
      · intro k2 hk2
        rw [hset, List.map_append, List.mem_append]
        rintro (hbad | hbad)
        · exact hfresh k2 (List.mem_cons_of_mem k hk2) hbad
        · simp only [List.map_cons, List.map_nil, List.mem_singleton] at hbad
          rw [List.nodup_cons] at hnd
          exact hnd.1 (hbad ▸ hk2)
      · have h4 : (c.set k p).entries.length = c.entries.length + 1 := by
          rw [hset, List.length_append, List.length_singleton]
        rw [hlimit, h4]
        omega
    rw [List.foldl_cons, hrest, hset, List.append_assoc]
    rfl

/-- C3: inserting `limit + 1` pairwise-distinct keys into an empty cache of
capacity `limit` leaves exactly `limit` entries whose keys are the inserted
keys minus the first (the earliest-inserted, never re-inserted key is the one
evicted, in insertion order), and re-inserting a key already present in a cache
within capacity moves it to the newest position of the eviction order without
evicting.  `get` is a read-only observation in this embedding (`store.get` plus
a defensive copy), so it cannot affect the order. -/
theorem pathCache_eviction_order (limit : Nat) (ks : List String) (p : List Cell)
    (hnd : ks.Nodup) (hlen : ks.length = limit + 1) :
    ((ks.foldl (fun acc k => PathCache.set acc k p)
        (PathCache.mk ([] : List (String × List Cell)) limit)).entries.length
          = limit ∧
     (ks.foldl (fun acc k => PathCache.set acc k p)
        (PathCache.mk ([] : List (String × List Cell)) limit)).entries.map
          Prod.fst = ks.tail) ∧
    (∀ (c : PathCache String) (k : String) (q : List Cell),
      k ∈ c.entries.map Prod.fst →
      c.entries.length ≤ c.limit →
      (c.set k q).entries.map Prod.fst = (c.entries.map Prod.fst).erase k ++ [k]) := by
  constructor
  · have hne : ks ≠ [] := by
      intro hbad
      rw [hbad] at hlen
      simp at hlen
    obtain ⟨ks0, klast, hks⟩ : ∃ ks0 klast, ks = ks0 ++ [klast] := by
      refine ⟨ks.dropLast, ks.getLast hne, ?_⟩
      exact (List.dropLast_append_getLast hne).symm
    have hks0len : ks0.length = limit := by
      have h2 := hlen
      rw [hks, List.length_append, List.length_singleton] at h2
      omega
    have hks0nd : ks0.Nodup := by
      rw [hks] at hnd
      exact (List.nodup_append.mp hnd).1
    have hklast : klast ∉ ks0 := by
      rw [hks] at hnd
      have hdisj := (List.nodup_append.mp hnd).2.2
      intro hbad
      exact hdisj hbad (List.mem_singleton_self klast)
    have hfold0 : (ks0.foldl (fun acc k => PathCache.set acc k p)
        (PathCache.mk ([] : List (String × List Cell)) limit)).entries
          = ks0.map (fun k => (k, p)) := by
      have h3 := foldl_pathCache_set_fresh p ks0
        (PathCache.mk ([] : List (String × List Cell)) limit)
        hks0nd (by intro k hk; simp) (by simp [hks0len])
      simpa using h3
    have hfoldlimit : (ks0.foldl (fun acc k => PathCache.set acc k p)
        (PathCache.mk ([] : List (String × List Cell)) limit)).limit
          = limit :=
      foldl_pathCache_set_limit p ks0 _
    have hfreshlast : klast ∉ (ks0.foldl (fun acc k => PathCache.set acc k p)
        (PathCache.mk ([] : List (String × List Cell)) limit)).entries.map
          Prod.fst := by
      rw [hfold0, List.map_map]
      simpa using hklast
    have hcond : (ks0.foldl (fun acc k => PathCache.set acc k p)
          (PathCache.mk ([] : List (String × List Cell)) limit)).limit <
        (ks0.foldl (fun acc k => PathCache.set acc k p)
          (PathCache.mk ([] : List (String × List Cell)) limit)).entries.length + 1 := by
      rw [hfoldlimit, hfold0, List.length_map, hks0len]
      omega
    have hset : ((ks0.foldl (fun acc k => PathCache.set acc k p)
        (PathCache.mk ([] : List (String × List Cell)) limit)).set
          klast p).entries
        = (ks0.map (fun k => (k, p)) ++ [(klast, p)]).tail := by
      rw [pathCache_set_entries_evict _ klast p hfreshlast hcond, hfold0]
    have hwhole : (ks.foldl (fun acc k => PathCache.set acc k p)
        (PathCache.mk ([] : List (String × List Cell)) limit)).entries
        = (ks0.map (fun k => (k, p)) ++ [(klast, p)]).tail := by
      rw [hks, List.foldl_append, List.foldl_cons, List.foldl_nil]
      exact hset
    constructor
    · rw [hwhole, List.length_tail, List.length_append, List.length_singleton,
        List.length_map, hks0len]
      omega
    · rw [hwhole, map_tail_eq, List.map_append]
      have hfst : ((ks0.map (fun k => (k, p))).map Prod.fst) = ks0 := by
        rw [List.map_map]
        have hid : (Prod.fst ∘ fun k : String => (k, p)) = id := rfl
        rw [hid, List.map_id]
      rw [hfst]
      have hfst2 : ([(klast, p)].map Prod.fst) = [klast] := rfl
      rw [hfst2, ← hks]
  · intro c k q hk hlen2
    have hpos : 0 < c.entries.length := by
      refine List.length_pos.mpr ?_
      intro hbad
      rw [hbad] at hk
      simp at hk
    have herase : (c.entries.eraseP (fun e => decide (e.1 = k))).length
        = c.entries.length - 1 := by
      have hmap := congrArg List.length (mapFst_eraseP_key c.entries k)
      rw [List.length_map, List.length_erase_of_mem hk, List.length_map] at hmap
      exact hmap
    simp only [PathCache.set, List.map_id']
    rw [if_neg (by
      rw [List.length_append, List.length_singleton, herase]
      omega)]
    rw [List.map_append, mapFst_eraseP_key]
    rfl

/-- C3 witness: capacity 2, keys "a", "b", "c": two entries remain, keyed
"b", "c" (the earliest key "a" was evicted). -/
theorem pathCache_eviction_order_witness :
    ((["a", "b", "c"] : List String).Nodup ∧
        (["a", "b", "c"] : List String).length = 2 + 1) ∧
      ((((["a", "b", "c"] : List String).foldl
            (fun acc k => PathCache.set acc k ([] : List Cell))
            (PathCache.mk ([] : List (String × List Cell)) 2)).entries.length = 2 ∧
        ((["a", "b", "c"] : List String).foldl
            (fun acc k => PathCache.set acc k ([] : List Cell))
            (PathCache.mk ([] : List (String × List Cell)) 2)).entries.map
          Prod.fst = (["a", "b", "c"] : List String).tail) ∧
      (∀ (c : PathCache String) (k : String) (q : List Cell),
        k ∈ c.entries.map Prod.fst →
        c.entries.length ≤ c.limit →
        (c.set k q).entries.map Prod.fst
          = (c.entries.map Prod.fst).erase k ++ [k])) :=
  ⟨⟨by decide, by decide⟩,
   pathCache_eviction_order 2 ["a", "b", "c"] [] (by decide) (by decide)⟩

lemma createCar_eq_of_short (s : Scene) (p : List Cell) (v : ℚ)
    (h : p.length < 2) : createCar s p v = s := by
  unfold createCar
  rw [if_pos h]

lemma createCar_carId_of_long (s : Scene) (p : List Cell) (v : ℚ)
    (h : ¬ p.length < 2) : (createCar s p v).carId = s.carId + 1 := by
  unfold createCar
  rw [if_neg h]

lemma removeCarAt_carId (s : Scene) (i : Nat) : (removeCarAt s i).carId = s.carId := rfl

lemma runCarOps_log_create_long (s : Scene) (p : List Cell) (v : ℚ)
    (rest : List CarOp) (h : ¬ p.length < 2) :
    (runCarOps s (CarOp.create p v :: rest)).2
      = (s.carId + 1) :: (runCarOps (createCar s p v) rest).2 := by
  simp [runCarOps, applyCarOp, h]

lemma runCarOps_log_create_short (s : Scene) (p : List Cell) (v : ℚ)
    (rest : List CarOp) (h : p.length < 2) :
    (runCarOps s (CarOp.create p v :: rest)).2
      = (runCarOps (createCar s p v) rest).2 := by
  simp [runCarOps, applyCarOp, h]

lemma runCarOps_log_removeAt (s : Scene) (j : Nat) (rest : List CarOp) :
    (runCarOps s (CarOp.removeAt j :: rest)).2
      = (runCarOps (removeCarAt s j) rest).2 := rfl

/-- Ids logged by a run of car operations containing no `clearCars` are
strictly increasing and all exceed the starting counter. -/
lemma runCarOps_ids_mono (ops : List CarOp) :
    ∀ (s : Scene), (∀ op ∈ ops, op ≠ CarOp.clear) →
      List.Pairwise (fun a b : Nat => a < b) (runCarOps s ops).2 ∧
      (∀ i ∈ (runCarOps s ops).2, s.carId < i) := by
  induction ops with
  | nil =>
    intro s _
    exact ⟨List.Pairwise.nil, by intro i hi; simp [runCarOps] at hi⟩
  | cons op rest ih =>
    intro s hnc
    have hnc2 : ∀ op2 ∈ rest, op2 ≠ CarOp.clear := by
      intro op2 hop2
      exact hnc op2 (List.mem_cons_of_mem op hop2)
    cases op with
    | create p v =>
      have hrec := ih (createCar s p v) hnc2
      by_cases hshort : p.length < 2
      · have hid : (createCar s p v).carId = s.carId := by
          rw [createCar_eq_of_short s p v hshort]
        rw [runCarOps_log_create_short s p v rest hshort]
        refine ⟨hrec.1, ?_⟩
        intro i hi
        have hgt := hrec.2 i hi
        rw [hid] at hgt
        exact hgt
      · have hid : (createCar s p v).carId = s.carId + 1 :=
          createCar_carId_of_long s p v hshort
        rw [runCarOps_log_create_long s p v rest hshort]
        constructor
        · refine List.Pairwise.cons ?_ hrec.1
          intro i hi
          have hgt := hrec.2 i hi
          rw [hid] at hgt
          omega
        · intro i hi
          rw [List.mem_cons] at hi
          rcases hi with hi | hi
          · omega
          · have hgt := hrec.2 i hi
            rw [hid] at hgt
            omega
    | removeAt j =>
      have hrec := ih (removeCarAt s j) hnc2
      rw [runCarOps_log_removeAt s j rest]
      refine ⟨hrec.1, ?_⟩
      intro i hi
      have hgt := hrec.2 i hi
      rw [removeCarAt_carId] at hgt
      exact hgt
    | clear =>
      exact absurd rfl (hnc CarOp.clear (List.mem_cons_self _ _))

/-- C7 counterexample: create, clear, create — both created vehicles receive
id 1, because `clearCars` resets the id counter to 0; the later vehicle's id is
not greater than the earlier one's. -/
theorem carIds_reset_by_clear_counterexample :
    (runCarOps initScene
        [CarOp.create [((0 : Int), (0 : Int)), ((1 : Int), (0 : Int))] 80,
         CarOp.clear,
         CarOp.create [((0 : Int), (0 : Int)), ((1 : Int), (0 : Int))] 80]).2
      = [1, 1] ∧
    ¬ List.Pairwise (fun a b : Nat => a < b)
        (runCarOps initScene
          [CarOp.create [((0 : Int), (0 : Int)), ((1 : Int), (0 : Int))] 80,
           CarOp.clear,
           CarOp.create [((0 : Int), (0 : Int)), ((1 : Int), (0 : Int))] 80]).2 := by
  constructor
  · decide
  · intro hbad
    rw [(by decide : (runCarOps initScene
        [CarOp.create [((0 : Int), (0 : Int)), ((1 : Int), (0 : Int))] 80,
         CarOp.clear,
         CarOp.create [((0 : Int), (0 : Int)), ((1 : Int), (0 : Int))] 80]).2
      = [1, 1])] at hbad
    simp at hbad

/-- C7 amended: across any sequence of creations and removals containing no
`clearCars`, the ids handed out are pairwise strictly increasing in creation
order (hence unique), and each exceeds the id counter at the start;
`clearCars` resets the counter to 0, so ids may repeat across a clear. -/
theorem carIds_strictly_increasing_without_clear (ops : List CarOp) (s : Scene)
    (hnc : ∀ op ∈ ops, op ≠ CarOp.clear) :
    List.Pairwise (fun a b : Nat => a < b) (runCarOps s ops).2 ∧
      (∀ i ∈ (runCarOps s ops).2, s.carId < i) :=
  runCarOps_ids_mono ops s hnc

lemma allocList_next (vs : List (Int × Int)) :
    ∀ (h : Heap), (Heap.allocList h vs).1.next = h.next + vs.length := by
  induction vs with
  | nil => intro h; simp [Heap.allocList]
  | cons v rest ih =>
    intro h
    simp only [Heap.allocList]
    rw [ih]
    simp only [List.length_cons]
    omega

lemma allocList_preserves (vs : List (Int × Int)) :
    ∀ (h : Heap) (a : Nat), a < h.next →
      (Heap.allocList h vs).1.data a = h.data a := by
  induction vs with
  | nil => intro h a _; rfl
  | cons v rest ih =>
    intro h a ha
    simp only [Heap.allocList]
    rw [ih _ a (by simp only []; omega)]
    simp only []
    rw [if_neg (by omega)]

lemma allocList_refs_range (vs : List (Int × Int)) :
    ∀ (h : Heap) (a : Nat), a ∈ (Heap.allocList h vs).2 →
      h.next ≤ a ∧ a < h.next + vs.length := by
  induction vs with
  | nil => intro h a ha; simp [Heap.allocList] at ha
  | cons v rest ih =>
    intro h a ha
    simp only [Heap.allocList, List.mem_cons] at ha
    rcases ha with ha | ha
    · subst ha
      simp only [List.length_cons]
      omega
    · have hrange := ih _ a ha
      simp only [] at hrange
      simp only [List.length_cons]
      omega

lemma allocList_reads (vs : List (Int × Int)) :
    ∀ (h : Heap),
      ((Heap.allocList h vs).2).map (Heap.allocList h vs).1.data = vs := by
  induction vs with
  | nil => intro h; rfl
  | cons v rest ih =>
    intro h
    simp only [Heap.allocList, List.map_cons, List.cons.injEq]
    constructor
    · rw [allocList_preserves rest _ h.next (by simp only []; omega)]
      simp
    · exact ih _

lemma eraseP_key_ne_of_nodup {K V : Type} [DecidableEq K] (k : K) :
    ∀ (l : List (K × V)), (l.map Prod.fst).Nodup →
      ∀ e ∈ l.eraseP (fun e => decide (e.1 = k)), e.1 ≠ k := by
  intro l
  induction l with
  | nil => intro _ e he; simp at he
  | cons e0 l ih =>
    intro hnd e he
    rw [List.map_cons, List.nodup_cons] at hnd
    by_cases h0 : e0.1 = k
    · have he2 : e ∈ l := by simpa [List.eraseP_cons, h0] using he
      intro hek
      refine hnd.1 ?_
      rw [h0, ← hek]
      exact List.mem_map_of_mem Prod.fst he2
    · have he2 : e = e0 ∨ e ∈ l.eraseP (fun e => decide (e.1 = k)) := by
        simpa [List.eraseP_cons, h0] using he
      rcases he2 with he2 | he2
      · subst he2; exact h0
      · exact ih hnd.2 e he2

lemma find?_key_append_last {K V : Type} [DecidableEq K]
    (l : List (K × V)) (k : K) (v : V) (h : ∀ e ∈ l, e.1 ≠ k) :
    (l ++ [(k, v)]).find? (fun e => decide (e.1 = k)) = some (k, v) := by
  induction l with
  | nil => simp [List.find?]
  | cons e0 l ih =>
    have h0 := h e0 (List.mem_cons_self _ _)
    rw [List.cons_append, List.find?_cons_of_neg _ (by simpa using h0)]
    exact ih (fun e he => h e (List.mem_cons_of_mem e0 he))

/-- C6: after `put(k, p)`, `get(k)` succeeds and returns a sequence holding the
same cell values in the same order as `p` held at put time, through fresh
object references disjoint from `p` (not reference-identical); overwriting any
object of the returned sequence, or any object of `p`, leaves the values
returned by a subsequent `get(k)` unchanged.  The hypotheses say that `p`'s
references are live heap objects, that the cache keys are without duplicates
(a `Map` invariant) and that the capacity is positive (it is 2048 in the
source). -/
theorem pathCache_defensive_copy (h : Heap) (cache : HeapPathCache) (key : String)
    (p : List Nat) (h1 : Heap) (c1 : HeapPathCache) (h2 : Heap)
    (res : Option (List Nat))
    (hvalid : ∀ r ∈ p, r < h.next)
    (hnd : (cache.entries.map Prod.fst).Nodup)
    (hcap : 0 < cache.limit)
    (hputEq : HeapPathCache.hput h cache key p = (h1, c1))
    (hgetEq : HeapPathCache.hget h1 c1 key = (h2, res)) :
    ∃ rs, res = some rs ∧
      rs.map h2.data = p.map h.data ∧
      (∀ a ∈ rs, a ∉ p) ∧
      (∀ w v, w ∈ rs ∨ w ∈ p →
        ∃ h3 rs2, HeapPathCache.hget (h2.write w v) c1 key = (h3, some rs2) ∧
          rs2.map h3.data = p.map h.data) := by
  have hh1 : h1 = (Heap.allocList h (p.map h.data)).1 := by
    have hfst := congrArg Prod.fst hputEq
    simpa [HeapPathCache.hput, heapCopyPath] using hfst.symm
  have hsnap : c1.entries.find? (fun e => decide (e.1 = key))
      = some (key, (Heap.allocList h (p.map h.data)).2) := by
    have hsnd := congrArg Prod.snd hputEq
    simp only [HeapPathCache.hput, heapCopyPath] at hsnd
    rw [← hsnd]
    have hAfter := eraseP_key_ne_of_nodup key cache.entries hnd
    by_cases hover : cache.limit <
        (cache.entries.eraseP (fun e => decide (e.1 = key))
          ++ [(key, (Heap.allocList h (p.map h.data)).2)]).length
    · simp only [if_pos hover]
      rcases hAD : cache.entries.eraseP (fun e => decide (e.1 = key)) with
        _ | ⟨e0, restAD⟩
      · exfalso
        rw [hAD] at hover
        simp at hover
        omega
      · rw [hAD, List.cons_append, List.tail_cons]
        refine find?_key_append_last restAD key _ ?_
        intro e he
        refine hAfter e ?_
        rw [hAD]
        exact List.mem_cons_of_mem e0 he
    · simp only [if_neg hover]
      exact find?_key_append_last _ key _ hAfter
  have hsnapRange : ∀ a ∈ (Heap.allocList h (p.map h.data)).2,
      h.next ≤ a ∧ a < h.next + p.length := by
    intro a ha
    have := allocList_refs_range (p.map h.data) h a ha
    rwa [List.length_map] at this
  have hsnapReads : ((Heap.allocList h (p.map h.data)).2).map h1.data
      = p.map h.data := by
    rw [hh1]
    exact allocList_reads (p.map h.data) h
  have hh1next : h1.next = h.next + p.length := by
    rw [hh1, allocList_next, List.length_map]
  -- unfold the get
  have hget2 : (HeapPathCache.hget h1 c1 key) =
      ((Heap.allocList h1
          (((Heap.allocList h (p.map h.data)).2).map h1.data)).1,
        some (Heap.allocList h1
          (((Heap.allocList h (p.map h.data)).2).map h1.data)).2) := by
    simp [HeapPathCache.hget, hsnap, heapCopyPath]
  rw [hget2, Prod.mk.injEq] at hgetEq
  obtain ⟨hh2, hres⟩ := hgetEq
  refine ⟨(Heap.allocList h1
      (((Heap.allocList h (p.map h.data)).2).map h1.data)).2, hres.symm, ?_, ?_, ?_⟩
  · rw [← hh2, allocList_reads, hsnapReads]
  · intro a ha
    have hr := allocList_refs_range _ h1 a ha
    intro hbad
    have hp := hvalid a hbad
    omega
  · intro w v hw
    have hwbig : h.next + p.length ≤ w ∨ w < h.next := by
      rcases hw with hw | hw
      · left
        have hr := allocList_refs_range _ h1 w hw
        omega
      · right
        exact hvalid w hw
    have hsnapvals : ((Heap.allocList h (p.map h.data)).2).map (h2.write w v).data
        = p.map h.data := by
      have hstep : ((Heap.allocList h (p.map h.data)).2).map (h2.write w v).data
          = ((Heap.allocList h (p.map h.data)).2).map h1.data := by
        refine List.map_congr_left ?_
        intro a ha
        have hrange := hsnapRange a ha
        have hne : a ≠ w := by omega
        simp only [Heap.write, if_neg hne]
        rw [← hh2]
        refine allocList_preserves _ h1 a ?_
        omega
      rw [hstep, hsnapReads]
    refine ⟨(Heap.allocList (h2.write w v)
        (((Heap.allocList h (p.map h.data)).2).map (h2.write w v).data)).1,
      (Heap.allocList (h2.write w v)
        (((Heap.allocList h (p.map h.data)).2).map (h2.write w v).data)).2,
      ?_, ?_⟩
    · simp [HeapPathCache.hget, hsnap, heapCopyPath]
    · rw [allocList_reads, hsnapvals]

/-- C6 witness: a two-object path on a concrete heap round-trips through the
cache with fresh references, immune to mutation. -/
theorem pathCache_defensive_copy_witness :
    ((∀ r ∈ ([0, 1] : List Nat), r < (Heap.mk (fun _ => ((5 : Int), (7 : Int))) 2).next) ∧
      ((HeapPathCache.mk ([] : List (String × List Nat)) 4).entries.map
        Prod.fst).Nodup ∧
      0 < (HeapPathCache.mk ([] : List (String × List Nat)) 4).limit) ∧
    (∃ rs,
      (HeapPathCache.hget
          (HeapPathCache.hput (Heap.mk (fun _ => ((5 : Int), (7 : Int))) 2)
            (HeapPathCache.mk ([] : List (String × List Nat)) 4) "k" [0, 1]).1
          (HeapPathCache.hput (Heap.mk (fun _ => ((5 : Int), (7 : Int))) 2)
            (HeapPathCache.mk ([] : List (String × List Nat)) 4) "k" [0, 1]).2
          "k").2 = some rs ∧
      rs.map (HeapPathCache.hget
          (HeapPathCache.hput (Heap.mk (fun _ => ((5 : Int), (7 : Int))) 2)
            (HeapPathCache.mk ([] : List (String × List Nat)) 4) "k" [0, 1]).1
          (HeapPathCache.hput (Heap.mk (fun _ => ((5 : Int), (7 : Int))) 2)
            (HeapPathCache.mk ([] : List (String × List Nat)) 4) "k" [0, 1]).2
          "k").1.data
        = ([0, 1] : List Nat).map (Heap.mk (fun _ => ((5 : Int), (7 : Int))) 2).data ∧
      (∀ a ∈ rs, a ∉ ([0, 1] : List Nat)) ∧
      (∀ w v, w ∈ rs ∨ w ∈ ([0, 1] : List Nat) →
        ∃ h3 rs2,
          HeapPathCache.hget
            ((HeapPathCache.hget
                (HeapPathCache.hput (Heap.mk (fun _ => ((5 : Int), (7 : Int))) 2)
                  (HeapPathCache.mk ([] : List (String × List Nat)) 4) "k" [0, 1]).1
                (HeapPathCache.hput (Heap.mk (fun _ => ((5 : Int), (7 : Int))) 2)
                  (HeapPathCache.mk ([] : List (String × List Nat)) 4) "k" [0, 1]).2
                "k").1.write w v)
            (HeapPathCache.hput (Heap.mk (fun _ => ((5 : Int), (7 : Int))) 2)
              (HeapPathCache.mk ([] : List (String × List Nat)) 4) "k" [0, 1]).2
            "k" = (h3, some rs2) ∧
          rs2.map h3.data
            = ([0, 1] : List Nat).map
                (Heap.mk (fun _ => ((5 : Int), (7 : Int))) 2).data)) :=
  ⟨⟨by decide, by decide, by decide⟩,
   pathCache_defensive_copy (Heap.mk (fun _ => ((5 : Int), (7 : Int))) 2)
     (HeapPathCache.mk ([] : List (String × List Nat)) 4) "k" [0, 1]
     _ _ _ _ (by decide) (by decide) (by decide)
     Prod.mk.eta.symm Prod.mk.eta.symm⟩

/-- C7 amended witness: create, remove, create from a fresh scene logs ids
[1, 2], strictly increasing. -/
theorem carIds_strictly_increasing_without_clear_witness :
    (∀ op ∈ [CarOp.create [((0 : Int), (0 : Int)), ((1 : Int), (0 : Int))] 80,
             CarOp.removeAt 0,
             CarOp.create [((0 : Int), (0 : Int)), ((1 : Int), (0 : Int))] 80],
        op ≠ CarOp.clear) ∧
      (List.Pairwise (fun a b : Nat => a < b)
          (runCarOps initScene
            [CarOp.create [((0 : Int), (0 : Int)), ((1 : Int), (0 : Int))] 80,
             CarOp.removeAt 0,
             CarOp.create [((0 : Int), (0 : Int)), ((1 : Int), (0 : Int))] 80]).2 ∧
        (∀ i ∈ (runCarOps initScene
            [CarOp.create [((0 : Int), (0 : Int)), ((1 : Int), (0 : Int))] 80,
             CarOp.removeAt 0,
             CarOp.create [((0 : Int), (0 : Int)), ((1 : Int), (0 : Int))] 80]).2,
          initScene.carId < i)) :=
  ⟨by decide,
   carIds_strictly_increasing_without_clear _ initScene (by decide)⟩

lemma mem_lineOffsets (r : Nat) (a : Int) :
    a ∈ (List.range (2 * r + 1)).map (fun (i : Nat) => (i : Int) - r) ↔
      -(r : Int) ≤ a ∧ a ≤ r := by
  simp only [List.mem_map, List.mem_range]
  constructor
  · rintro ⟨i, hi, rfl⟩
    omega
  · rintro ⟨h1, h2⟩
    exact ⟨(a + r).toNat, by omega, by omega⟩

lemma mem_ringOffsets (r : Nat) (d : Int × Int) :
    d ∈ ringOffsets r ↔ max d.1.natAbs d.2.natAbs = r := by
  constructor
  · intro hmem
    rw [ringOffsets, List.mem_filter] at hmem
    exact of_decide_eq_true hmem.2
  · intro hmax
    have hb1 : d.1.natAbs ≤ r := by rw [← hmax]; exact le_max_left _ _
    have hb2 : d.2.natAbs ≤ r := by rw [← hmax]; exact le_max_right _ _
    rw [ringOffsets, List.mem_filter]
    refine ⟨?_, by simpa using hmax⟩
    rw [List.mem_flatMap]
    refine ⟨d.2, ?_, ?_⟩
    · rw [mem_lineOffsets]
      constructor <;> omega
    · rw [List.mem_map]
      refine ⟨d.1, ?_, rfl⟩
      rw [mem_lineOffsets]
      constructor <;> omega

lemma ringAcc_step (s : Scene) (pos : ℚ × ℚ) (base : Cell)
    (seen : List (Int × Int)) (acc : Option (Cell × ℚ)) (d : Int × Int)
    (h : RingAcc s pos base seen acc) :
    RingAcc s pos base (seen ++ [d]) (ringStep s pos base acc d) := by
  by_cases hroad : isRoadS s (base.1 + d.1, base.2 + d.2) = true
  · cases acc with
    | none =>
      have hstep : ringStep s pos base none d
          = some ((base.1 + d.1, base.2 + d.2),
              sqDistToCellCenter pos (base.1 + d.1, base.2 + d.2)) := by
        simp [ringStep, hroad]
      rw [hstep]
      refine ⟨⟨d, List.mem_append_right _ (List.mem_singleton_self d), rfl⟩,
        hroad, rfl, ?_⟩
      intro d2 hd2 hroad2
      rw [List.mem_append] at hd2
      rcases hd2 with hd2 | hd2
      · exact absurd hroad2 (by simp [h d2 hd2])
      · rw [List.mem_singleton] at hd2
        subst hd2
        exact le_refl _
    | some best =>
      obtain ⟨⟨d0, hd0, hc0⟩, hroad0, hdist0, hmin0⟩ := h
      by_cases hlt : sqDistToCellCenter pos (base.1 + d.1, base.2 + d.2) < best.2
      · have hstep : ringStep s pos base (some best) d
            = some ((base.1 + d.1, base.2 + d.2),
                sqDistToCellCenter pos (base.1 + d.1, base.2 + d.2)) := by
          simp [ringStep, hroad, hlt]
        rw [hstep]
        refine ⟨⟨d, List.mem_append_right _ (List.mem_singleton_self d), rfl⟩,
          hroad, rfl, ?_⟩
        intro d2 hd2 hroad2
        rw [List.mem_append] at hd2
        rcases hd2 with hd2 | hd2
        · exact le_trans (le_of_lt hlt) (hmin0 d2 hd2 hroad2)
        · rw [List.mem_singleton] at hd2
          subst hd2
          exact le_refl _
      · have hstep : ringStep s pos base (some best) d = some best := by
          simp [ringStep, hroad, hlt]
        rw [hstep]
        refine ⟨⟨d0, List.mem_append_left _ hd0, hc0⟩, hroad0, hdist0, ?_⟩
        intro d2 hd2 hroad2
        rw [List.mem_append] at hd2
        rcases hd2 with hd2 | hd2
        · exact hmin0 d2 hd2 hroad2
        · rw [List.mem_singleton] at hd2
          subst hd2
          exact not_lt.mp hlt
  · have hstep : ringStep s pos base acc d = acc := by
      cases acc <;> simp [ringStep, hroad]
    rw [hstep]
    cases acc with
    | none =>
      intro d2 hd2
      rw [List.mem_append] at hd2
      rcases hd2 with hd2 | hd2
      · exact h d2 hd2
      · rw [List.mem_singleton] at hd2
        subst hd2
        exact Bool.not_eq_true _ ▸ (Bool.eq_false_iff.mpr hroad)
    | some best =>
      obtain ⟨⟨d0, hd0, hc0⟩, hroad0, hdist0, hmin0⟩ := h
      refine ⟨⟨d0, List.mem_append_left _ hd0, hc0⟩, hroad0, hdist0, ?_⟩
      intro d2 hd2 hroad2
      rw [List.mem_append] at hd2
      rcases hd2 with hd2 | hd2
      · exact hmin0 d2 hd2 hroad2
      · rw [List.mem_singleton] at hd2
        subst hd2
        exact absurd hroad2 hroad

lemma ringScan_fold (s : Scene) (pos : ℚ × ℚ) (base : Cell) :
    ∀ (l seen : List (Int × Int)) (acc : Option (Cell × ℚ)),
      RingAcc s pos base seen acc →
      RingAcc s pos base (seen ++ l) (l.foldl (ringStep s pos base) acc) := by
  intro l
  induction l with
  | nil => intro seen acc h; simpa using h
  | cons d rest ih =>
    intro seen acc h
    rw [List.foldl_cons]
    have h3 := ih (seen ++ [d]) _ (ringAcc_step s pos base seen acc d h)
    simpa [List.append_assoc] using h3

lemma ringScan_spec (s : Scene) (pos : ℚ × ℚ) (base : Cell) (radius : Nat) :
    RingAcc s pos base (ringOffsets radius) (ringScan s pos base radius) := by
  have h := ringScan_fold s pos base (ringOffsets radius) [] none
    (by intro d hd; simp at hd)
  simpa [ringScan] using h

lemma ringLoop_none_spec (s : Scene) (pos : ℚ × ℚ) (base : Cell) :
    ∀ (remaining radius : Nat), ringLoop s pos base radius remaining = none →
      ∀ j, radius ≤ j → j < radius + remaining →
        ringScan s pos base j = none := by
  intro remaining
  induction remaining with
  | zero => intro radius _ j h1 h2; omega
  | succ rem ih =>
    intro radius hnone j h1 h2
    rcases hscan : ringScan s pos base radius with _ | best
    · by_cases hj : j = radius
      · subst hj; exact hscan
      · have hloop : ringLoop s pos base (radius + 1) rem = none := by
          simpa [ringLoop, hscan] using hnone
        exact ih (radius + 1) hloop j (by omega) (by omega)
    · exfalso
      simp [ringLoop, hscan] at hnone

lemma ringLoop_eq_none (s : Scene) (pos : ℚ × ℚ) (base : Cell) :
    ∀ (remaining radius : Nat),
      (∀ j, radius ≤ j → j < radius + remaining →
        ringScan s pos base j = none) →
      ringLoop s pos base radius remaining = none := by
  intro remaining
  induction remaining with
  | zero => intro radius _; rfl
  | succ rem ih =>
    intro radius hall
    have hscan : ringScan s pos base radius = none :=
      hall radius (le_refl _) (by omega)
    have hrest := ih (radius + 1) (fun j h1 h2 => hall j (by omega) (by omega))
    simp [ringLoop, hscan, hrest]

lemma ringLoop_some_spec (s : Scene) (pos : ℚ × ℚ) (base : Cell) :
    ∀ (remaining radius : Nat) (c : Cell),
      ringLoop s pos base radius remaining = some c →
      ∃ j, radius ≤ j ∧ j < radius + remaining ∧
        (∃ q, ringScan s pos base j = some (c, q)) ∧
        ∀ j2, radius ≤ j2 → j2 < j → ringScan s pos base j2 = none := by
  intro remaining
  induction remaining with
  | zero => intro radius c h; simp [ringLoop] at h
  | succ rem ih =>
    intro radius c h
    rcases hscan : ringScan s pos base radius with _ | best
    · have hloop : ringLoop s pos base (radius + 1) rem = some c := by
        simpa [ringLoop, hscan] using h
      obtain ⟨j, hj1, hj2, hj3, hj4⟩ := ih (radius + 1) c hloop
      refine ⟨j, by omega, by omega, hj3, ?_⟩
      intro j2 hj21 hj22
      by_cases hj2r : j2 = radius
      · subst hj2r; exact hscan
      · exact hj4 j2 (by omega) hj22
    · have hc : best.1 = c := by simpa [ringLoop, hscan] using h
      refine ⟨radius, le_refl _, by omega, ⟨best.2, ?_⟩, ?_⟩
      · rw [hscan, ← hc]
      · intro j2 h1 h2; omega

/-- C5: with the query's containing cell in bounds — if that cell is a road it
is returned directly; otherwise the result is `none` exactly when every ring of
Chebyshev radius 1 .. maxRadius (membership of `ringOffsets r` is exactly
Chebyshev norm `r`) holds no road cell, and a returned cell lies on the first
ring holding any road cell and is Euclidean-closest (by squared tile-center
distance) among that ring's road cells. -/
theorem findNearestRoadCell_ring_search (s : Scene) (pos : ℚ × ℚ)
    (maxRadius : Nat)
    (hin : insideB gridWidth gridHeight
      (⌊pos.1 / tileSize⌋, ⌊pos.2 / tileSize⌋) = true) :
    (∀ (r : Nat) (d : Int × Int),
      d ∈ ringOffsets r ↔ max d.1.natAbs d.2.natAbs = r) ∧
    (isRoadS s (⌊pos.1 / tileSize⌋, ⌊pos.2 / tileSize⌋) = true →
      findNearestRoadCell s pos maxRadius
        = some (⌊pos.1 / tileSize⌋, ⌊pos.2 / tileSize⌋)) ∧
    (isRoadS s (⌊pos.1 / tileSize⌋, ⌊pos.2 / tileSize⌋) = false →
      (findNearestRoadCell s pos maxRadius = none ↔
        ∀ r, 1 ≤ r → r ≤ max 1 maxRadius → ∀ d ∈ ringOffsets r,
          isRoadS s (⌊pos.1 / tileSize⌋ + d.1, ⌊pos.2 / tileSize⌋ + d.2)
            = false)) ∧
    (∀ c, isRoadS s (⌊pos.1 / tileSize⌋, ⌊pos.2 / tileSize⌋) = false →
      findNearestRoadCell s pos maxRadius = some c →
      ∃ r, 1 ≤ r ∧ r ≤ max 1 maxRadius ∧
        (∃ d ∈ ringOffsets r,
          c = (⌊pos.1 / tileSize⌋ + d.1, ⌊pos.2 / tileSize⌋ + d.2)) ∧
        isRoadS s c = true ∧
        (∀ r2, 1 ≤ r2 → r2 < r → ∀ d ∈ ringOffsets r2,
          isRoadS s (⌊pos.1 / tileSize⌋ + d.1, ⌊pos.2 / tileSize⌋ + d.2)
            = false) ∧
        (∀ d ∈ ringOffsets r,
          isRoadS s (⌊pos.1 / tileSize⌋ + d.1, ⌊pos.2 / tileSize⌋ + d.2)
              = true →
          sqDistToCellCenter pos c ≤
            sqDistToCellCenter pos
              (⌊pos.1 / tileSize⌋ + d.1, ⌊pos.2 / tileSize⌋ + d.2))) := by
  have hbase : findNearestRoadCell s pos maxRadius
      = if isRoadS s (⌊pos.1 / tileSize⌋, ⌊pos.2 / tileSize⌋) = true then
          some (⌊pos.1 / tileSize⌋, ⌊pos.2 / tileSize⌋)
        else ringLoop s pos (⌊pos.1 / tileSize⌋, ⌊pos.2 / tileSize⌋) 1
          (max 1 maxRadius) := by
    simp only [findNearestRoadCell, hin, if_true]
  refine ⟨fun r d => mem_ringOffsets r d, ?_, ?_, ?_⟩
  · intro hroad
    rw [hbase, if_pos hroad]
  · intro hnoroad
    rw [hbase, if_neg (by rw [hnoroad]; simp)]
    constructor
    · intro hnone r h1 h2 d hd
      have hscan := ringLoop_none_spec s pos _ (max 1 maxRadius) 1 hnone r h1
        (by omega)
      have hacc := ringScan_spec s pos
        (⌊pos.1 / tileSize⌋, ⌊pos.2 / tileSize⌋) r
      rw [hscan] at hacc
      exact hacc d hd
    · intro hall
      refine ringLoop_eq_none s pos _ (max 1 maxRadius) 1 ?_
      intro j h1 h2
      rcases hscan : ringScan s pos (⌊pos.1 / tileSize⌋, ⌊pos.2 / tileSize⌋) j
        with _ | best
      · rfl
      · exfalso
        have hacc := ringScan_spec s pos
          (⌊pos.1 / tileSize⌋, ⌊pos.2 / tileSize⌋) j
        rw [hscan] at hacc
        obtain ⟨⟨d0, hd0, hc0⟩, hroad0, _, _⟩ := hacc
        have hfalse := hall j h1 (by omega) d0 hd0
        rw [hc0] at hroad0
        rw [hroad0] at hfalse
        exact absurd hfalse (by decide)
  · intro c hnoroad hsome
    rw [hbase, if_neg (by rw [hnoroad]; simp)] at hsome
    obtain ⟨j, hj1, hj2, ⟨q, hscan⟩, hearlier⟩ :=
      ringLoop_some_spec s pos _ (max 1 maxRadius) 1 c hsome
    have hacc := ringScan_spec s pos
      (⌊pos.1 / tileSize⌋, ⌊pos.2 / tileSize⌋) j
    rw [hscan] at hacc
    obtain ⟨⟨d0, hd0, hc0⟩, hroad0, hdist0, hmin0⟩ := hacc
    refine ⟨j, hj1, by omega, ⟨d0, hd0, hc0⟩, hroad0, ?_, ?_⟩
    · intro r2 h1 h2 d hd
      have hscan2 := hearlier r2 h1 h2
      have hacc2 := ringScan_spec s pos
        (⌊pos.1 / tileSize⌋, ⌊pos.2 / tileSize⌋) r2
      rw [hscan2] at hacc2
      exact hacc2 d hd
    · intro d hd hroadd
      have := hmin0 d hd hroadd
      rw [hdist0] at this
      exact this

/-- C5 witness: with the only road at (1, 0) and the query inside cell (0, 0),
the ring search applies: radius-1 ring membership, direct return, none-iff and
first-ring minimality all hold at this input. -/
theorem findNearestRoadCell_ring_search_witness :
    insideB gridWidth gridHeight
        (⌊((8 : ℚ)) / tileSize⌋, ⌊((8 : ℚ)) / tileSize⌋) = true ∧
      ((∀ (r : Nat) (d : Int × Int),
          d ∈ ringOffsets r ↔ max d.1.natAbs d.2.natAbs = r) ∧
        (isRoadS (runGridOps initScene [GridOp.setRoad 1 0 1]) (⌊((8 : ℚ)) / tileSize⌋, ⌊((8 : ℚ)) / tileSize⌋) = true →
          findNearestRoadCell (runGridOps initScene [GridOp.setRoad 1 0 1]) (8, 8) 2
            = some (⌊((8 : ℚ)) / tileSize⌋, ⌊((8 : ℚ)) / tileSize⌋)) ∧
        (isRoadS (runGridOps initScene [GridOp.setRoad 1 0 1]) (⌊((8 : ℚ)) / tileSize⌋, ⌊((8 : ℚ)) / tileSize⌋) = false →
          (findNearestRoadCell (runGridOps initScene [GridOp.setRoad 1 0 1]) (8, 8) 2 = none ↔
            ∀ r, 1 ≤ r → r ≤ max 1 2 → ∀ d ∈ ringOffsets r,
              isRoadS (runGridOps initScene [GridOp.setRoad 1 0 1])
                (⌊((8 : ℚ)) / tileSize⌋ + d.1, ⌊((8 : ℚ)) / tileSize⌋ + d.2)
                = false)) ∧
        (∀ c, isRoadS (runGridOps initScene [GridOp.setRoad 1 0 1]) (⌊((8 : ℚ)) / tileSize⌋, ⌊((8 : ℚ)) / tileSize⌋) = false →
          findNearestRoadCell (runGridOps initScene [GridOp.setRoad 1 0 1]) (8, 8) 2 = some c →
          ∃ r, 1 ≤ r ∧ r ≤ max 1 2 ∧
            (∃ d ∈ ringOffsets r,
              c = (⌊((8 : ℚ)) / tileSize⌋ + d.1, ⌊((8 : ℚ)) / tileSize⌋ + d.2)) ∧
            isRoadS (runGridOps initScene [GridOp.setRoad 1 0 1]) c = true ∧
            (∀ r2, 1 ≤ r2 → r2 < r → ∀ d ∈ ringOffsets r2,
              isRoadS (runGridOps initScene [GridOp.setRoad 1 0 1])
                (⌊((8 : ℚ)) / tileSize⌋ + d.1, ⌊((8 : ℚ)) / tileSize⌋ + d.2)
                = false) ∧
            (∀ d ∈ ringOffsets r,
              isRoadS (runGridOps initScene [GridOp.setRoad 1 0 1])
                  (⌊((8 : ℚ)) / tileSize⌋ + d.1, ⌊((8 : ℚ)) / tileSize⌋ + d.2)
                  = true →
              sqDistToCellCenter (8, 8) c ≤
                sqDistToCellCenter (8, 8)
                  (⌊((8 : ℚ)) / tileSize⌋ + d.1, ⌊((8 : ℚ)) / tileSize⌋ + d.2)))) :=
  ⟨by
     simp only [insideB, decide_eq_true_eq, tileSize, gridWidth, gridHeight]
     norm_num,
   findNearestRoadCell_ring_search (runGridOps initScene [GridOp.setRoad 1 0 1])
     (8, 8) 2 (by
       simp only [insideB, decide_eq_true_eq, tileSize, gridWidth, gridHeight]
       norm_num)⟩

lemma bfsLayers_zero_walkable (walk : Cell → Nat) (W H : Nat) (start : Cell)
    (h : walkableB walk W H start = true) :
    bfsLayers walk W H start 0 = ([start], [start]) := by
  simp [bfsLayers, h]

lemma bfsLayers_zero_blocked (walk : Cell → Nat) (W H : Nat) (start : Cell)
    (h : ¬ walkableB walk W H start = true) :
    bfsLayers walk W H start 0 = ([], []) := by
  simp [bfsLayers, h]

lemma frontier_succ (walk : Cell → Nat) (W H : Nat) (start : Cell) (k : Nat) :
    (bfsLayers walk W H start (k + 1)).2
      = bfsStep walk W H (bfsLayers walk W H start k).1
          (bfsLayers walk W H start k).2 := rfl

lemma visited_succ (walk : Cell → Nat) (W H : Nat) (start : Cell) (k : Nat) :
    (bfsLayers walk W H start (k + 1)).1
      = (bfsLayers walk W H start k).1
          ++ bfsStep walk W H (bfsLayers walk W H start k).1
              (bfsLayers walk W H start k).2 := rfl

lemma mem_bfsStep (walk : Cell → Nat) (W H : Nat) (v f : List Cell) (c : Cell) :
    c ∈ bfsStep walk W H v f ↔
      walkableB walk W H c = true ∧ c ∉ v ∧ ∃ p ∈ f, c ∈ neighborsOf p := by
  unfold bfsStep
  rw [List.mem_dedup, List.mem_filter, List.mem_flatMap]
  rw [Bool.and_eq_true, Bool.not_eq_true', decide_eq_false_iff_not]
  tauto

lemma frontier_sound (walk : Cell → Nat) (W H : Nat) (start : Cell) :
    ∀ (k : Nat) (c : Cell), c ∈ (bfsLayers walk W H start k).2 →
      ∃ p : List Cell, p.length = k + 1 ∧ p.head? = some start ∧
        p.getLast? = some c ∧ chainAdj p ∧
        ∀ x ∈ p, walkableB walk W H x = true := by
  intro k
  induction k with
  | zero =>
    intro c h
    by_cases hw : walkableB walk W H start = true
    · rw [bfsLayers_zero_walkable walk W H start hw] at h
      rw [List.mem_singleton] at h
      subst h
      refine ⟨[c], rfl, rfl, rfl, List.chain'_singleton c, ?_⟩
      intro x hx
      rw [List.mem_singleton] at hx
      subst hx
      exact hw
    · rw [bfsLayers_zero_blocked walk W H start hw] at h
      simp at h
  | succ k ih =>
    intro c h
    rw [frontier_succ, mem_bfsStep] at h
    obtain ⟨hwk, _, p0, hp0, hnb⟩ := h
    obtain ⟨p, hlen, hhead, hlast, hchain, hall⟩ := ih p0 hp0
    have hpne : p ≠ [] := by
      intro hbad
      rw [hbad] at hhead
      exact absurd hhead (by simp)
    refine ⟨p ++ [c], ?_, ?_, ?_, ?_, ?_⟩
    · rw [List.length_append, hlen, List.length_singleton]
    · rcases p with _ | ⟨ph, pt⟩
      · exact absurd rfl hpne
      · simpa using hhead
    · simp
    · unfold chainAdj at hchain ⊢
      rw [List.chain'_append]
      refine ⟨hchain, List.chain'_singleton c, ?_⟩
      intro x hx y hy
      rw [hlast, Option.mem_def, Option.some.injEq] at hx
      simp only [List.head?_cons, Option.mem_def, Option.some.injEq] at hy
      subst hx
      subst hy
      unfold adjacent
      exact decide_eq_true hnb
    · intro x hx
      rw [List.mem_append] at hx
      rcases hx with hx | hx
      · exact hall x hx
      · rw [List.mem_singleton] at hx
        subst hx
        exact hwk

lemma mem_visited_iff (walk : Cell → Nat) (W H : Nat) (start : Cell) :
    ∀ (k : Nat) (c : Cell),
      c ∈ (bfsLayers walk W H start k).1 ↔
        ∃ j, j ≤ k ∧ c ∈ (bfsLayers walk W H start j).2 := by
  intro k
  induction k with
  | zero =>
    intro c
    have h0 : (bfsLayers walk W H start 0).1 = (bfsLayers walk W H start 0).2 := by
      by_cases hw : walkableB walk W H start = true
      · rw [bfsLayers_zero_walkable walk W H start hw]
      · rw [bfsLayers_zero_blocked walk W H start hw]
    constructor
    · intro h
      exact ⟨0, le_refl _, h0 ▸ h⟩
    · rintro ⟨j, hj, h⟩
      have hj0 : j = 0 := by omega
      subst hj0
      exact h0 ▸ h
  | succ k ih =>
    intro c
    rw [visited_succ, List.mem_append]
    constructor
    · rintro (h | h)
      · obtain ⟨j, hj, hh⟩ := (ih c).mp h
        exact ⟨j, by omega, hh⟩
      · exact ⟨k + 1, le_refl _, by rw [frontier_succ]; exact h⟩
    · rintro ⟨j, hj, hh⟩
      by_cases hjk : j ≤ k
      · exact Or.inl ((ih c).mpr ⟨j, hjk, hh⟩)
      · have hje : j = k + 1 := by omega
        subst hje
        rw [frontier_succ] at hh
        exact Or.inr hh

lemma frontier_complete (walk : Cell → Nat) (W H : Nat) (start : Cell) :
    ∀ (rest : List Cell) (c0 : Cell) (j0 : Nat),
      c0 ∈ (bfsLayers walk W H start j0).2 →
      List.Chain (fun a b => adjacent a b = true) c0 rest →
      (∀ x ∈ rest, walkableB walk W H x = true) →
      ∃ j, j ≤ j0 + rest.length ∧
        rest.getLastD c0 ∈ (bfsLayers walk W H start j).2 := by
  intro rest
  induction rest with
  | nil =>
    intro c0 j0 h _ _
    exact ⟨j0, by omega, h⟩
  | cons c1 rest ih =>
    intro c0 j0 h hchain hwk
    rw [List.chain_cons] at hchain
    have hc1 : ∃ j1, j1 ≤ j0 + 1 ∧ c1 ∈ (bfsLayers walk W H start j1).2 := by
      by_cases hv : c1 ∈ (bfsLayers walk W H start j0).1
      · obtain ⟨j, hj, hh⟩ := (mem_visited_iff walk W H start j0 c1).mp hv
        exact ⟨j, by omega, hh⟩
      · refine ⟨j0 + 1, le_refl _, ?_⟩
        rw [frontier_succ, mem_bfsStep]
        refine ⟨hwk c1 (List.mem_cons_self _ _), hv, c0, h, ?_⟩
        have hadj := hchain.1
        unfold adjacent at hadj
        exact of_decide_eq_true hadj
    obtain ⟨j1, hj1, hc1f⟩ := hc1
    obtain ⟨j, hj, hlast⟩ :=
      ih c1 j1 hc1f hchain.2 (fun x hx => hwk x (List.mem_cons_of_mem _ hx))
    refine ⟨j, ?_, ?_⟩
    · rw [List.length_cons]
      omega
    · rw [List.getLastD_cons]
      exact hlast

lemma bfsStep_nil (walk : Cell → Nat) (W H : Nat) (v : List Cell) :
    bfsStep walk W H v [] = [] := rfl

lemma frontier_empty_stable (walk : Cell → Nat) (W H : Nat) (start : Cell)
    (k : Nat) (h : (bfsLayers walk W H start k).2 = []) :
    ∀ j, k ≤ j → (bfsLayers walk W H start j).2 = [] := by
  intro j hj
  induction j, hj using Nat.le_induction with
  | base => exact h
  | succ j hkj ih =>
    rw [frontier_succ, ih, bfsStep_nil]

lemma bfsFindAux_spec (walk : Cell → Nat) (W H : Nat) (start target : Cell) :
    ∀ (fuel k : Nat),
      (∀ kf, bfsFindAux walk W H target fuel k (bfsLayers walk W H start k).1
          (bfsLayers walk W H start k).2 = some kf →
        k ≤ kf ∧ target ∈ (bfsLayers walk W H start kf).2 ∧
          ∀ j, k ≤ j → j < kf → target ∉ (bfsLayers walk W H start j).2) ∧
      (bfsFindAux walk W H target fuel k (bfsLayers walk W H start k).1
          (bfsLayers walk W H start k).2 = none →
        ∀ j, k ≤ j → j ≤ k + fuel →
          target ∉ (bfsLayers walk W H start j).2) := by
  intro fuel
  induction fuel with
  | zero =>
    intro k
    constructor
    · intro kf hsome
      by_cases hmem : target ∈ (bfsLayers walk W H start k).2
      · have hk : k = kf := by simpa [bfsFindAux, hmem] using hsome
        subst hk
        exact ⟨le_refl _, hmem, fun j h1 h2 => absurd h2 (by omega)⟩
      · exact absurd hsome (by simp [bfsFindAux, hmem])
    · intro hnone j h1 h2
      have hj : j = k := by omega
      subst hj
      by_cases hmem : target ∈ (bfsLayers walk W H start j).2
      · exact absurd hnone (by simp [bfsFindAux, hmem])
      · exact hmem
  | succ fuel ih =>
    intro k
    by_cases hmem : target ∈ (bfsLayers walk W H start k).2
    · constructor
      · intro kf hsome
        have hk : k = kf := by simpa [bfsFindAux, hmem] using hsome
        subst hk
        exact ⟨le_refl _, hmem, fun j h1 h2 => absurd h2 (by omega)⟩
      · intro hnone
        exact absurd hnone (by simp [bfsFindAux, hmem])
    · by_cases hempty : (bfsLayers walk W H start k).2.isEmpty
      · have hemp : (bfsLayers walk W H start k).2 = [] :=
          List.isEmpty_iff.mp hempty
        constructor
        · intro kf hsome
          exact absurd hsome (by simp [bfsFindAux, hmem, hempty])
        · intro _ j h1 _
          rw [frontier_empty_stable walk W H start k hemp j h1]
          simp
      · have hrec : bfsFindAux walk W H target (fuel + 1) k
            (bfsLayers walk W H start k).1 (bfsLayers walk W H start k).2
            = bfsFindAux walk W H target fuel (k + 1)
              (bfsLayers walk W H start (k + 1)).1
              (bfsLayers walk W H start (k + 1)).2 := by
          rw [visited_succ, frontier_succ]
          simp [bfsFindAux, hmem, hempty]
        obtain ⟨ihsome, ihnone⟩ := ih (k + 1)
        constructor
        · intro kf hsome
          rw [hrec] at hsome
          obtain ⟨h1, h2, h3⟩ := ihsome kf hsome
          refine ⟨by omega, h2, ?_⟩
          intro j hj1 hj2
          by_cases hjk : j = k
          · subst hjk
            exact hmem
          · exact h3 j (by omega) hj2
        · intro hnone j h1 h2
          rw [hrec] at hnone
          by_cases hjk : j = k
          · subst hjk
            exact hmem
          · exact ihnone hnone j (by omega) (by omega)

lemma bfsBuild_spec (walk : Cell → Nat) (W H : Nat) (start : Cell) :
    ∀ (k : Nat) (c : Cell), c ∈ (bfsLayers walk W H start k).2 →
      (bfsBuild walk W H start k c).length = k + 1 ∧
      (bfsBuild walk W H start k c).head? = some start ∧
      (bfsBuild walk W H start k c).getLast? = some c ∧
      chainAdj (bfsBuild walk W H start k c) ∧
      ∀ x ∈ bfsBuild walk W H start k c, walkableB walk W H x = true := by
  intro k
  induction k with
  | zero =>
    intro c h
    by_cases hw : walkableB walk W H start = true
    · rw [bfsLayers_zero_walkable walk W H start hw, List.mem_singleton] at h
      subst h
      refine ⟨rfl, rfl, rfl, List.chain'_singleton c, ?_⟩
      intro x hx
      simp only [bfsBuild, List.mem_singleton] at hx
      subst hx
      exact hw
    · rw [bfsLayers_zero_blocked walk W H start hw] at h
      simp at h
  | succ k ih =>
    intro c h
    rw [frontier_succ, mem_bfsStep] at h
    obtain ⟨hwk, _, p0, hp0, hnb⟩ := h
    have hfind : ((bfsLayers walk W H start k).2.find?
        (fun p => adjacent p c)).isSome := by
      rw [List.find?_isSome]
      refine ⟨p0, hp0, ?_⟩
      unfold adjacent
      exact decide_eq_true hnb
    obtain ⟨pp, hpp⟩ := Option.isSome_iff_exists.mp hfind
    have hppf : pp ∈ (bfsLayers walk W H start k).2 :=
      List.mem_of_find?_eq_some hpp
    have hppadj : adjacent pp c = true := by
      have hp2 := List.find?_some hpp
      simpa using hp2
    obtain ⟨hlen, hhead, hlast, hchain, hall⟩ := ih pp hppf
    have hb : bfsBuild walk W H start (k + 1) c
        = bfsBuild walk W H start k pp ++ [c] := by
      simp [bfsBuild, hpp]
    rw [hb]
    refine ⟨?_, ?_, by simp, ?_, ?_⟩
    · rw [List.length_append, hlen, List.length_singleton]
    · rcases hB : bfsBuild walk W H start k pp with _ | ⟨bh, bt⟩
      · rw [hB] at hhead
        exact absurd hhead (by simp)
      · rw [hB] at hhead
        simpa using hhead
    · unfold chainAdj at hchain ⊢
      rw [List.chain'_append]
      refine ⟨hchain, List.chain'_singleton c, ?_⟩
      intro x hx y hy
      rw [hlast, Option.mem_def, Option.some.injEq] at hx
      simp only [List.head?_cons, Option.mem_def, Option.some.injEq] at hy
      subst hx
      subst hy
      exact hppadj
    · intro x hx
      rw [List.mem_append] at hx
      rcases hx with hx | hx
      · exact hall x hx
      · rw [List.mem_singleton] at hx
        subst hx
        exact hwk

lemma roadPath_shrink (road : Cell → Bool) :
    ∀ (n : Nat) (p : List Cell) (a b : Cell), p.length ≤ n →
      RoadPathOn road p a b →
      ∃ q, RoadPathOn road q a b ∧ q.Nodup ∧ q.length ≤ p.length ∧
        ∀ x ∈ q, x ∈ p := by
  intro n
  induction n with
  | zero =>
    intro p a b hlen hp
    obtain ⟨hne, _, _, _, _⟩ := hp
    rcases p with _ | ⟨x, rest⟩
    · exact absurd rfl hne
    · simp at hlen
  | succ n ih =>
    intro p a b hlen hp
    obtain ⟨hne, hhead, hlast, hchain, hroad⟩ := hp
    rcases p with _ | ⟨a0, rest⟩
    · exact absurd rfl hne
    have ha0 : a0 = a := by simpa using hhead
    subst ha0
    by_cases hmem : a0 ∈ rest
    · obtain ⟨u, v, huv⟩ := List.append_of_mem hmem
      subst huv
      have hsplit : a0 :: (u ++ a0 :: v) = (a0 :: u) ++ (a0 :: v) := by simp
      have hchain2 : chainAdj (a0 :: v) := by
        unfold chainAdj at hchain ⊢
        rw [hsplit, List.chain'_append] at hchain
        exact hchain.2.1
      have hlast2 : (a0 :: v).getLast? = some b := by
        rw [hsplit, List.getLast?_append_of_ne_nil _ (by simp)] at hlast
        exact hlast
      have hroad2 : ∀ c ∈ a0 :: v, road c = true := by
        intro c hc
        refine hroad c ?_
        rcases List.mem_cons.mp hc with hc | hc
        · exact hc ▸ List.mem_cons_self _ _
        · exact List.mem_cons_of_mem _
            (List.mem_append_right u (List.mem_cons_of_mem _ hc))
      have hlen2 : (a0 :: v).length ≤ n := by
        simp only [List.length_cons, List.length_append] at hlen ⊢
        omega
      obtain ⟨q, hq, hqn, hqlen, hqsub⟩ := ih (a0 :: v) a0 b hlen2
        ⟨by simp, by simp, hlast2, hchain2, hroad2⟩
      refine ⟨q, hq, hqn, ?_, ?_⟩
      · simp only [List.length_cons, List.length_append] at hqlen ⊢
        omega
      · intro x hx
        rcases List.mem_cons.mp (hqsub x hx) with h | h
        · exact h ▸ List.mem_cons_self _ _
        · exact List.mem_cons_of_mem _
            (List.mem_append_right u (List.mem_cons_of_mem _ h))
    · rcases rest with _ | ⟨r0, rest2⟩
      · refine ⟨[a0], ⟨by simp, by simp, by simpa using hlast,
          List.chain'_singleton a0, ?_⟩, by simp, by simp, by simp⟩
        intro c hc
        rw [List.mem_singleton] at hc
        exact hc ▸ hroad a0 (List.mem_cons_self _ _)
      · have hchainC : List.Chain (fun x y => adjacent x y = true) a0 (r0 :: rest2) := by
          unfold chainAdj at hchain
          exact hchain
        have hrp2 : RoadPathOn road (r0 :: rest2) r0 b := by
          refine ⟨by simp, by simp, by simpa using hlast, ?_, ?_⟩
          · unfold chainAdj
            exact (List.chain_cons.mp hchainC).2
          · intro c hc
            exact hroad c (List.mem_cons_of_mem _ hc)
        have hlen2 : (r0 :: rest2).length ≤ n := by
          simp only [List.length_cons] at hlen ⊢
          omega
        obtain ⟨q, ⟨hqne, hqhead, hqlast, hqchain, hqroad⟩, hqn, hqlen, hqsub⟩ :=
          ih (r0 :: rest2) r0 b hlen2 hrp2
        rcases q with _ | ⟨q0, qt⟩
        · exact absurd rfl hqne
        have hq0 : q0 = r0 := by simpa using hqhead
        refine ⟨a0 :: q0 :: qt, ⟨by simp, by simp, by simpa using hqlast, ?_, ?_⟩,
          ?_, ?_, ?_⟩
        · unfold chainAdj at hqchain ⊢
          rw [List.chain'_cons]
          refine ⟨?_, hqchain⟩
          rw [hq0]
          exact (List.chain_cons.mp hchainC).1
        · intro c hc
          rcases List.mem_cons.mp hc with hc | hc
          · exact hc ▸ hroad a0 (List.mem_cons_self _ _)
          · exact hqroad c hc
        · rw [List.nodup_cons]
          refine ⟨?_, hqn⟩
          intro hbad
          exact hmem (hqsub a0 hbad)
        · simp only [List.length_cons] at hqlen ⊢
          omega
        · intro x hx
          rcases List.mem_cons.mp hx with hx | hx
          · exact hx ▸ List.mem_cons_self _ _
          · exact List.mem_cons_of_mem _ (hqsub x hx)

lemma mem_allCellsList (W H : Nat) (c : Cell) :
    c ∈ allCellsList W H ↔ insideB W H c = true := by
  unfold allCellsList insideB
  rw [List.mem_flatMap]
  constructor
  · rintro ⟨x, hx, hc⟩
    rw [List.mem_map] at hc
    obtain ⟨y, hy, rfl⟩ := hc
    rw [List.mem_range] at hx hy
    rw [decide_eq_true_eq]
    refine ⟨by omega, by omega, by omega, by omega⟩
  · intro h
    rw [decide_eq_true_eq] at h
    obtain ⟨h1, h2, h3, h4⟩ := h
    refine ⟨c.1.toNat, ?_, ?_⟩
    · rw [List.mem_range]
      omega
    · rw [List.mem_map]
      refine ⟨c.2.toNat, by rw [List.mem_range]; omega, ?_⟩
      have he : ((c.1.toNat : Int), (c.2.toNat : Int)) = (c.1, c.2) := by
        rw [Int.toNat_of_nonneg h1, Int.toNat_of_nonneg h2]
      rw [he]

lemma nodup_allCellsList (W H : Nat) : (allCellsList W H).Nodup := by
  unfold allCellsList
  rw [List.nodup_flatMap]
  constructor
  · intro x _
    refine List.Nodup.map ?_ (List.nodup_range H)
    intro y1 y2 h
    simpa using h
  · refine List.Pairwise.imp ?_ (List.pairwise_lt_range W)
    intro x1 x2 hlt
    intro z hz1 hz2
    rw [List.mem_map] at hz1 hz2
    obtain ⟨y1, _, hy1⟩ := hz1
    obtain ⟨y2, _, hy2⟩ := hz2
    have hx : (x1 : Int) = (x2 : Int) := by
      rw [← hy1] at hy2
      exact (Prod.mk.injEq _ _ _ _).mp hy2.symm |>.1
    omega

lemma length_allCellsList (W H : Nat) : (allCellsList W H).length = W * H := by
  unfold allCellsList
  rw [List.flatMap_def, List.length_flatten, List.map_map]
  have hmap : (List.range W).map (List.length ∘ fun (x : Nat) =>
      (List.range H).map (fun (y : Nat) => ((x : Int), (y : Int))))
      = List.replicate ((List.range W).map (List.length ∘ fun (x : Nat) =>
          (List.range H).map (fun (y : Nat) => ((x : Int), (y : Int))))).length H := by
    refine List.eq_replicate_of_mem ?_
    intro b hb
    rw [List.mem_map] at hb
    obtain ⟨x, _, rfl⟩ := hb
    simp
  rw [hmap, List.sum_const_nat]
  simp

lemma nodup_inside_length_le (W H : Nat) (q : List Cell) (hnd : q.Nodup)
    (hin : ∀ x ∈ q, insideB W H x = true) : q.length ≤ W * H := by
  have hsub : q ⊆ allCellsList W H := fun x hx =>
    (mem_allCellsList W H x).mpr (hin x hx)
  have hle := (List.subperm_of_subset hnd hsub).length_le
  rw [length_allCellsList] at hle
  exact hle

lemma roadPath_decompose (road : Cell → Bool) (p : List Cell) (a b : Cell)
    (hp : RoadPathOn road p a b) :
    ∃ rest, p = a :: rest ∧
      List.Chain (fun x y => adjacent x y = true) a rest ∧
      rest.getLastD a = b := by
  obtain ⟨hne, hhead, hlast, hchain, _⟩ := hp
  rcases p with _ | ⟨a0, rest⟩
  · exact absurd rfl hne
  have ha0 : a0 = a := by simpa using hhead
  subst ha0
  refine ⟨rest, rfl, ?_, ?_⟩
  · unfold chainAdj at hchain
    exact hchain
  · rw [List.getLast?_cons] at hlast
    rw [List.getLastD_eq_getLast?]
    exact Option.some_inj.mp hlast

lemma roadPath_reaches (walk : Cell → Nat) (W H : Nat) (a b : Cell) (p : List Cell)
    (hp : RoadPathOn (walkableB walk W H) p a b) :
    ∃ j, j + 1 ≤ p.length ∧ b ∈ (bfsLayers walk W H a j).2 := by
  have hwa : walkableB walk W H a = true := by
    refine hp.2.2.2.2 a (List.mem_of_mem_head? ?_)
    rw [hp.2.1]
    rfl
  have hstart : a ∈ (bfsLayers walk W H a 0).2 := by
    rw [bfsLayers_zero_walkable walk W H a hwa]
    exact List.mem_singleton_self a
  obtain ⟨rest, hpeq, hchain, hlastd⟩ := roadPath_decompose _ p a b hp
  have hwrest : ∀ x ∈ rest, walkableB walk W H x = true := by
    intro x hx
    exact hp.2.2.2.2 x (hpeq ▸ List.mem_cons_of_mem _ hx)
  obtain ⟨j, hjle, hjmem⟩ :=
    frontier_complete walk W H a rest a 0 hstart hchain hwrest
  rw [hlastd] at hjmem
  refine ⟨j, ?_, hjmem⟩
  rw [hpeq]
  simp only [List.length_cons]
  omega

/-- Modelled from the spec: the search of `searchPath` returns a shortest
only-road route when one exists, and the empty sequence when none exists. -/
theorem searchPath_spec (walk : Cell → Nat) (W H : Nat) (a b : Cell) :
    ((∃ p, RoadPathOn (walkableB walk W H) p a b) →
      RoadPathOn (walkableB walk W H) (searchPath walk W H a b) a b ∧
        ∀ p, RoadPathOn (walkableB walk W H) p a b →
          (searchPath walk W H a b).length ≤ p.length) ∧
    ((¬ ∃ p, RoadPathOn (walkableB walk W H) p a b) →
      searchPath walk W H a b = []) := by
  constructor
  · rintro ⟨p, hp⟩
    obtain ⟨q, hq, hqnd, hqlen, _⟩ :=
      roadPath_shrink (walkableB walk W H) p.length p a b (le_refl _) hp
    have hqbound : q.length ≤ W * H := by
      refine nodup_inside_length_le W H q hqnd ?_
      intro x hx
      have hw := hq.2.2.2.2 x hx
      unfold walkableB at hw
      exact (Bool.and_eq_true_iff.mp hw).1
    obtain ⟨j, hjlen, hjmem⟩ := roadPath_reaches walk W H a b q hq
    have hfind := bfsFindAux_spec walk W H a b (W * H) 0
    rcases hd : bfsDist walk W H a b with _ | kf
    · exfalso
      have hnone := hfind.2 (by unfold bfsDist at hd; exact hd) j
        (Nat.zero_le j) (by omega)
      exact hnone hjmem
    · obtain ⟨-, hkfmem, hkfmin⟩ := hfind.1 kf (by unfold bfsDist at hd; exact hd)
      obtain ⟨hblen, hbhead, hblast, hbchain, hball⟩ :=
        bfsBuild_spec walk W H a kf b hkfmem
      have hsp : searchPath walk W H a b = bfsBuild walk W H a kf b := by
        unfold searchPath
        rw [hd]
      constructor
      · rw [hsp]
        refine ⟨?_, hbhead, hblast, hbchain, hball⟩
        intro hbad
        rw [hbad] at hblen
        simp at hblen
      · intro p2 hp2
        obtain ⟨j2, hj2len, hj2mem⟩ := roadPath_reaches walk W H a b p2 hp2
        have hkfj2 : kf ≤ j2 := by
          by_contra hlt
          exact hkfmin j2 (Nat.zero_le j2) (by omega) hj2mem
        rw [hsp, hblen]
        omega
  · intro hnone
    rcases hd : bfsDist walk W H a b with _ | kf
    · unfold searchPath
      rw [hd]
    · exfalso
      have hfind := bfsFindAux_spec walk W H a b (W * H) 0
      obtain ⟨-, hkfmem, -⟩ := hfind.1 kf (by unfold bfsDist at hd; exact hd)
      obtain ⟨hblen, hbhead, hblast, hbchain, hball⟩ :=
        bfsBuild_spec walk W H a kf b hkfmem
      refine hnone ⟨bfsBuild walk W H a kf b, ?_, hbhead, hblast, hbchain, hball⟩
      intro hbad
      rw [hbad] at hblen
      simp at hblen

lemma walkable_eq_isRoadS (s : Scene) (h : WalkMirror s) :
    walkableB s.walkMatrix gridWidth gridHeight = isRoadS s := by
  funext c
  unfold walkableB isRoadS
  cases hx : insideB gridWidth gridHeight c with
  | false => simp
  | true =>
    simp only [Bool.true_and]
    exact decide_eq_decide.mpr (h c hx)

lemma pathCache_get_mem {K : Type} [DecidableEq K] (cache : PathCache K) (k : K)
    (v : List Cell) (h : cache.get k = some v) : (k, v) ∈ cache.entries := by
  unfold PathCache.get at h
  rcases hf : cache.entries.find? (fun e => decide (e.1 = k)) with _ | e
  · rw [hf] at h
    exact absurd h (by simp)
  · rw [hf] at h
    have hmem := List.mem_of_find?_eq_some hf
    have hkey' := List.find?_some hf
    have hkey : e.1 = k := by simpa using hkey'
    have hv : e.2.map (fun cell => cell) = v := by
      simpa using h
    have hid : e.2.map (fun cell => cell) = e.2 := by
      simp
    have he : (k, v) = e := by
      rw [← hkey, ← hv, hid]
    rw [he]
    exact hmem

lemma findPathW_fst (walk : Cell → Nat) (W H : Nat)
    (cache : PathCache (Cell × Cell)) (a b : Cell)
    (hok : ∀ k p, (k, p) ∈ cache.entries → p = searchPath walk W H k.1 k.2) :
    (findPathW walk W H cache a b).1 = searchPath walk W H a b := by
  unfold findPathW
  split
  · next cached heq =>
    exact hok (a, b) cached (pathCache_get_mem cache (a, b) cached heq)
  · next heq =>
    show (if 0 < (searchPath walk W H a b).length
        then (searchPath walk W H a b,
          cache.set (a, b) (searchPath walk W H a b))
        else (searchPath walk W H a b, cache)).1 = searchPath walk W H a b
    split <;> rfl

lemma scene_findPath_fst (s : Scene) (a b : Cell) (hok : CacheOK s) :
    (Scene.findPath s a b).1 = searchPath s.walkMatrix gridWidth gridHeight a b := by
  unfold Scene.findPath
  exact findPathW_fst s.walkMatrix gridWidth gridHeight s.pathCache a b hok

/-- C1: with the walk matrix mirroring the grid and every cache entry equal to
the current search result for its key, `findPath(a, b)` returns, whenever an
only-road route from `a` to `b` exists, a sequence starting at `a`, ending at
`b`, stepping only between 4-directionally adjacent road cells, of minimal
length among all such routes; when no route exists it returns the empty
sequence (so an empty/length<2 result, not an error). -/
theorem findPath_shortest_road_path (s : Scene) (a b : Cell)
    (hmirror : WalkMirror s) (hok : CacheOK s) :
    ((∃ p, RoadPathOn (isRoadS s) p a b) →
      RoadPathOn (isRoadS s) (Scene.findPath s a b).1 a b ∧
        ∀ p, RoadPathOn (isRoadS s) p a b →
          (Scene.findPath s a b).1.length ≤ p.length) ∧
    ((¬ ∃ p, RoadPathOn (isRoadS s) p a b) →
      (Scene.findPath s a b).1 = []) := by
  have hwr := walkable_eq_isRoadS s hmirror
  have hfst := scene_findPath_fst s a b hok
  rw [hfst, ← hwr]
  exact searchPath_spec s.walkMatrix gridWidth gridHeight a b

theorem findPath_shortest_road_path_witness :
    RoadPathOn
      (isRoadS (runGridOps initScene [GridOp.setRoad 0 0 1, GridOp.setRoad 1 0 1]))
      (Scene.findPath (runGridOps initScene [GridOp.setRoad 0 0 1, GridOp.setRoad 1 0 1])
          ((0 : Int), (0 : Int)) ((1 : Int), (0 : Int))).1
      ((0 : Int), (0 : Int)) ((1 : Int), (0 : Int)) := by
  have hm : WalkMirror (runGridOps initScene
      [GridOp.setRoad 0 0 1, GridOp.setRoad 1 0 1]) :=
    walkMirror_runGridOps _ initScene walkMirror_initScene
  have hok : CacheOK (runGridOps initScene
      [GridOp.setRoad 0 0 1, GridOp.setRoad 1 0 1]) := by
    intro k p hmem
    have hent : (runGridOps initScene
        [GridOp.setRoad 0 0 1, GridOp.setRoad 1 0 1]).pathCache.entries = [] := rfl
    rw [hent] at hmem
    exact absurd hmem (List.not_mem_nil _)
  have hex : ∃ p, RoadPathOn
      (isRoadS (runGridOps initScene [GridOp.setRoad 0 0 1, GridOp.setRoad 1 0 1]))
      p ((0 : Int), (0 : Int)) ((1 : Int), (0 : Int)) :=
    ⟨[((0 : Int), (0 : Int)), ((1 : Int), (0 : Int))], by decide⟩
  exact ((findPath_shortest_road_path _ _ _ hm hok).1 hex).1

/-- C8 counterexample: on a road cell, `findPath` with start = end returns a
one-cell sequence (length < 2) and nevertheless stores it in the cache: the
source caches on `path.length > 0`, not on length at least 2. -/
theorem findPath_caches_trivial_counterexample :
    ((Scene.findPath (runGridOps initScene [GridOp.setRoad 0 0 1])
        ((0 : Int), (0 : Int)) ((0 : Int), (0 : Int))).1.length < 2)
    ∧ (PathCache.get
        (Scene.findPath (runGridOps initScene [GridOp.setRoad 0 0 1])
            ((0 : Int), (0 : Int)) ((0 : Int), (0 : Int))).2.pathCache
        (((0 : Int), (0 : Int)), ((0 : Int), (0 : Int)))
        = some [((0 : Int), (0 : Int))]) := by
  decide

/-- C8 (amended): on a cache hit `findPath` leaves the cache unchanged; on a
miss it stores the search result under the (start, end) key exactly when that
result is non-empty.  A one-cell start = end result is therefore cached as
well: the cut-off is length at least 1, not length at least 2. -/
theorem findPath_caching_rule (walk : Cell → Nat) (W H : Nat)
    (cache : PathCache (Cell × Cell)) (a b : Cell) :
    (∀ cached, cache.get (a, b) = some cached →
      (findPathW walk W H cache a b).2 = cache) ∧
    (cache.get (a, b) = none →
      (findPathW walk W H cache a b).2 =
        (if 0 < (searchPath walk W H a b).length
         then cache.set (a, b) (searchPath walk W H a b)
         else cache)) := by
  constructor
  · intro cached hget
    unfold findPathW
    rw [hget]
  · intro hget
    unfold findPathW
    rw [hget]
    show (if 0 < (searchPath walk W H a b).length
        then (searchPath walk W H a b,
          cache.set (a, b) (searchPath walk W H a b))
        else (searchPath walk W H a b, cache)).2 =
      (if 0 < (searchPath walk W H a b).length
        then cache.set (a, b) (searchPath walk W H a b)
        else cache)
    by_cases hpos : 0 < (searchPath walk W H a b).length
    · rw [if_pos hpos, if_pos hpos]
    · rw [if_neg hpos, if_neg hpos]

theorem findPath_caching_rule_witness :
    ((findPathW (fun _ => 0) 1 1
        (PathCache.mk [((((0 : Int), (0 : Int)), ((0 : Int), (0 : Int))),
          [((0 : Int), (0 : Int))])] 50)
        ((0 : Int), (0 : Int)) ((0 : Int), (0 : Int))).2
      = PathCache.mk [((((0 : Int), (0 : Int)), ((0 : Int), (0 : Int))),
          [((0 : Int), (0 : Int))])] 50) ∧
    ((findPathW (fun _ => 0) 1 1 (PathCache.mk [] 50)
        ((0 : Int), (0 : Int)) ((0 : Int), (0 : Int))).2
      = (if 0 < (searchPath (fun _ => 0) 1 1
            ((0 : Int), (0 : Int)) ((0 : Int), (0 : Int))).length
         then (PathCache.mk [] 50).set
            (((0 : Int), (0 : Int)), ((0 : Int), (0 : Int)))
            (searchPath (fun _ => 0) 1 1 ((0 : Int), (0 : Int)) ((0 : Int), (0 : Int)))
         else PathCache.mk [] 50)) := by
  constructor
  · exact (findPath_caching_rule (fun _ => 0) 1 1 _
      ((0 : Int), (0 : Int)) ((0 : Int), (0 : Int))).1 [((0 : Int), (0 : Int))] rfl
  · exact (findPath_caching_rule (fun _ => 0) 1 1 _
      ((0 : Int), (0 : Int)) ((0 : Int), (0 : Int))).2 rfl

end RoadSim

